import Mathlib

/-!
# Social-Hub hybrid recommendation engine: a verification development

Shallow embedding of the recommendation core of the Social-Hub repository and
proofs about it.  The embedded components are:

* `backend/recommender/hybrid.py` — `HybridRecommender.recommend_posts`,
  `_combine_post_recommendations`, `_get_popular_posts`;
* `backend/recommender/collaborative.py` — `build_user_item_matrix`,
  `calculate_user_similarity`, `find_similar_users`,
  `recommend_posts_collaborative`;
* `Recommendation System/travel_recommender/src/recommender/content_based.py`
  — `recommend_posts_content_based` (its TF-IDF `find_similar_posts` helper is
  an explicit parameter, see below);
* `backend/social_hub_recommender_fixed.py` —
  `_get_collaborative_recommendations`, the time-dependent part of
  `_get_content_based_recommendations`, `_find_similar_users`, and
  `_apply_intelligent_diversity`.

Modelling conventions, stated once:

* Machine floats of the source are embedded as exact rationals (`ℚ`).  The
  interaction weights, fusion weights and rank scores of the source are small
  rationals, so every arithmetic expression of the source is mirrored exactly.
* Python `sorted(..., key=..., reverse=True)` and `list.sort(...,
  reverse=True)` are stable descending sorts: elements with equal keys keep
  their original relative order.  They are embedded with
  `List.insertionSort` under the relation `key b ≤ key a`, which has exactly
  that stability behaviour.
* A SQL `ORDER BY k DESC` leaves the order of rows with equal keys
  unspecified; the embedding refines it to the stable sort over the base-table
  row order.  A SQL `GROUP BY` is refined to grouping in ascending key order.
* A Python `dict` whose insertion order matters (`combined_scores` of
  `_combine_post_recommendations`, the preference maps of the content engine)
  is embedded as an insertion-ordered association list; a `dict` used purely
  as a finite map is embedded as a function; a `set` is embedded as a
  duplicate-free list.
* Each recommendation record (a heterogeneous Python dict) is represented by
  the fields the stated properties mention: its post id and, where needed,
  the numeric score attached to it.  Presentation-only fields (caption,
  reason string, author name, ...) are dropped.
-/

namespace SocialHub

/-- A row of the backend `posts` table: id, author (`user_id` column),
optional `location_id`, the denormalized engagement counters, and the
`media_type` / `created_at` attributes used by `social_hub_recommender_fixed`.
`createdDay` stands for `created_at`, measured in whole days. -/
structure Post where
  id : Nat
  userId : Nat
  locationId : Option Nat := none
  likesCount : Nat := 0
  commentsCount : Nat := 0
  sharesCount : Nat := 0
  mediaType : String := "image"
  createdDay : Int := 0
deriving DecidableEq, Repr

/-- A row of the backend `locations` table (the columns the embedded code
reads). -/
structure Location where
  id : Nat
  name : String
  country : String
  category : String
deriving DecidableEq, Repr

/-- A snapshot of the backend store: the `users`, `posts`, `locations`,
`likes`, `comments` and `shares` tables.  Users are their ids; `likes`,
`comments` and `shares` rows are `(user_id, post_id)` pairs. -/
structure DB where
  users : List Nat
  posts : List Post
  locations : List Location := []
  likes : List (Nat × Nat)
  comments : List (Nat × Nat)
  shares : List (Nat × Nat)
deriving Repr

/-- Stable descending sort by a rational key: the embedding of Python
`sorted(..., key=key, reverse=True)` / `list.sort(key=key, reverse=True)` and
of SQL `ORDER BY key DESC` over a fixed base order.  Elements with equal keys
keep their relative order. -/
def sortDescBy {α : Type} (key : α → ℚ) (l : List α) : List α :=
  l.insertionSort (fun a b => key b ≤ key a)

/-- Stable descending sort by a primary and a secondary rational key: the
embedding of SQL `ORDER BY k₁ DESC, k₂ DESC`. -/
def sortDescBy2 {α : Type} (key₁ key₂ : α → ℚ) (l : List α) : List α :=
  l.insertionSort (fun a b =>
    key₁ b < key₁ a ∨ (key₁ b = key₁ a ∧ key₂ b ≤ key₂ a))

/-- Ascending sort of naturals (the embedding of the sorted row/column index
produced by a pandas `pivot`, and of `GROUP BY` key order). -/
def sortAsc (l : List Nat) : List Nat :=
  l.insertionSort (fun a b => a ≤ b)

/-! ## `backend/recommender/hybrid.py` — `HybridRecommender` -/

/-- `self.collaborative_weight = 0.6`. -/
def collaborativeWeight : ℚ := 0.6

/-- `self.content_weight = 0.4`. -/
def contentWeight : ℚ := 0.4

/-- `self.min_interactions_for_collaborative = 3`. -/
def minInteractionsForCollaborative : Nat := 3

/-- `SELECT COUNT(*) FROM users WHERE id = ?`. -/
def userCount (db : DB) (u : Nat) : Nat :=
  db.users.count u

/-- `SELECT COUNT(*) FROM (SELECT user_id FROM likes WHERE user_id = ? UNION
ALL ... comments ... UNION ALL ... shares ...)` — the user's total number of
interaction rows. -/
def interactionCount (db : DB) (u : Nat) : Nat :=
  ((db.likes ++ db.comments ++ db.shares).filter (fun r => r.1 = u)).length

/-- `SELECT DISTINCT post_id FROM (likes WHERE user_id=? UNION comments ...
UNION shares ...)` — the posts the user has liked, commented on or shared. -/
def interactedPostIds (db : DB) (u : Nat) : List Nat :=
  (((db.likes ++ db.comments ++ db.shares).filter (fun r => r.1 = u)).map
    (fun r => r.2)).dedup

/-- `p.likes_count + p.comments_count + p.shares_count`. -/
def engagement (p : Post) : Nat :=
  p.likesCount + p.commentsCount + p.sharesCount

/-- `HybridRecommender._get_popular_posts`: posts whose author exists
(`JOIN users`), restricted to posts the target user has not liked, commented
on or shared (`p.id NOT IN (...)`), ordered by the raw engagement counters
descending, truncated to `n` (`LIMIT ?`).  Note the query does NOT exclude
posts the user authored. -/
def getPopularPosts (db : DB) (u : Nat) (n : Nat) : List Nat :=
  let excluded := interactedPostIds db u
  let rows := db.posts.filter (fun p => p.userId ∈ db.users ∧ p.id ∉ excluded)
  ((sortDescBy (fun p => (engagement p : ℚ)) rows).take n).map (fun p => p.id)

/-- Membership test of the Python dict `combined_scores`. -/
def dictContains (m : List (Nat × ℚ)) (k : Nat) : Bool :=
  m.any (fun e => e.1 = k)

/-- `combined_scores[k] = v`: overwrite in place if the key is present,
otherwise append (Python dicts preserve insertion order). -/
def dictSet (m : List (Nat × ℚ)) (k : Nat) (v : ℚ) : List (Nat × ℚ) :=
  if dictContains m k then m.map (fun e => if e.1 = k then (e.1, v) else e)
  else m ++ [(k, v)]

/-- `combined_scores[k] += v` (only reached when the key is present). -/
def dictAdd (m : List (Nat × ℚ)) (k : Nat) (v : ℚ) : List (Nat × ℚ) :=
  m.map (fun e => if e.1 = k then (e.1, e.2 + v) else e)

/-- `collab_score * self.collaborative_weight` for the item at 0-based rank
`i` of a collaborative list of length `L`, where
`collab_score = (L - i) / L`. -/
def collabContribution (L i : Nat) : ℚ :=
  (((L - i : Nat) : ℚ) / (L : ℚ)) * collaborativeWeight

/-- `content_score * self.content_weight` for the item at 0-based rank `i` of
a content list of length `L`. -/
def contentContribution (L i : Nat) : ℚ :=
  (((L - i : Nat) : ℚ) / (L : ℚ)) * contentWeight

/-- First loop of `_combine_post_recommendations`:
`for i, rec in enumerate(collab_recs): combined_scores[post_id] =
((len(collab_recs) - i) / len(collab_recs)) * self.collaborative_weight`.
`L` is `len(collab_recs)`; `i` is the loop index. -/
def collabPhase (L : Nat) : Nat → List Nat → List (Nat × ℚ) → List (Nat × ℚ)
  | _, [], m => m
  | i, pid :: rest, m =>
    collabPhase L (i + 1) rest (dictSet m pid (collabContribution L i))

/-- Second loop of `_combine_post_recommendations`: add
`content_score * content_weight` when the post already has a collaborative
score, otherwise insert it with the content contribution alone. -/
def contentPhase (L : Nat) : Nat → List Nat → List (Nat × ℚ) → List (Nat × ℚ)
  | _, [], m => m
  | i, pid :: rest, m =>
    contentPhase L (i + 1) rest
      (if dictContains m pid then dictAdd m pid (contentContribution L i)
       else dictSet m pid (contentContribution L i))

/-- `HybridRecommender._combine_post_recommendations`: rank-normalized
weighted fusion of the two candidate lists (given by their post ids), sorted
by combined score descending (`sorted(..., reverse=True)`, a stable sort) and
truncated to `n_final`.  Output pairs are `(post_id, hybrid_score)`. -/
def combinePostRecommendations (collabRecs contentRecs : List Nat)
    (nFinal : Nat) : List (Nat × ℚ) :=
  let m := collabPhase collabRecs.length 0 collabRecs []
  let m2 := contentPhase contentRecs.length 0 contentRecs m
  (sortDescBy (fun e => e.2) m2).take nFinal

/-- The strategy tag stamped on every returned recommendation
(`rec['hybrid_approach'] = approach`). -/
inductive Approach
  | hybrid
  | collaborativeOnly
  | contentOnly
  | popularityFallback
deriving DecidableEq, Repr

/-- The result of a guarded sub-engine call (`try: recs = engine(...) except
Exception: pass`): the returned list on success, the empty list when the call
raised. -/
def caughtRecs (res : Except String (List Nat)) : List Nat :=
  match res with | .ok l => l | .error _ => []

/-- The collaborative candidate list `recommend_posts` actually works with:
the engine is only called when the user has at least
`min_interactions_for_collaborative` interactions, so below that threshold
the list stays empty. -/
def effectiveCollabRecs (db : DB) (collabRes : Except String (List Nat))
    (u : Nat) : List Nat :=
  if minInteractionsForCollaborative ≤ interactionCount db u then
    caughtRecs collabRes
  else []

/-- `HybridRecommender.recommend_posts`, up to the early `return []`.
The two sub-engine calls are taken as parameters: `contentRes` is the outcome
of `self.content_based.recommend_posts_content_based(user_id, 2n)` and
`collabRes` that of
`self.collaborative.recommend_posts_collaborative(user_id, 2n)`; `.error`
models the call raising an exception, which the source catches (`except
Exception`) leaving the corresponding list empty.  (The backend content
engine module itself is not part of the repository snapshot; no claim depends
on its internals, so its result value is universally quantified.)  Returns
`none` for the `user_exists == 0` early return, otherwise the chosen strategy
together with the ordered post ids of the final recommendation list. -/
def recommendPostsCore (db : DB) (contentRes collabRes : Except String (List Nat))
    (userId n : Nat) : Option (Approach × List Nat) :=
  if userCount db userId = 0 then none
  else
    let contentRecs := caughtRecs contentRes
    let collabRecs := effectiveCollabRecs db collabRes userId
    if 0 < collabRecs.length ∧ 0 < contentRecs.length then
      some (.hybrid,
        (combinePostRecommendations collabRecs contentRecs n).map (fun e => e.1))
    else if 0 < collabRecs.length then
      some (.collaborativeOnly, collabRecs.take n)
    else if 0 < contentRecs.length then
      some (.contentOnly, contentRecs.take n)
    else
      some (.popularityFallback, getPopularPosts db userId n)

/-- The caller-visible value of `HybridRecommender.recommend_posts`: the
ordered ids of the returned recommendation list.  A nonexistent user yields
the plain empty list (`return []`), exactly like an existing user for whom
every strategy comes up empty. -/
def recommend_posts (db : DB) (contentRes collabRes : Except String (List Nat))
    (userId n : Nat) : List Nat :=
  match recommendPostsCore db contentRes collabRes userId n with
  | none => []
  | some (_, recs) => recs

/-! ## `backend/recommender/collaborative.py` — `CollaborativeRecommender` -/

/-- The weighted interaction rows `(user_id, post_id, weighted_value)` feeding
`build_user_item_matrix`: the union of the three interaction tables, each row
mapped through `interaction_weights = {'like': 1.0, 'comment': 2.0, 'share':
3.0, 'save': 2.5}` (only the first three kinds occur in the union). -/
def allWeightedInteractions (db : DB) : List (Nat × Nat × ℚ) :=
  db.likes.map (fun r => (r.1, r.2, (1 : ℚ)))
    ++ db.comments.map (fun r => (r.1, r.2, (2 : ℚ)))
    ++ db.shares.map (fun r => (r.1, r.2, (3 : ℚ)))

/-- The row index of the pivoted user-item matrix: the distinct users with at
least one interaction, in ascending order (a pandas `pivot` sorts its index). -/
def matrixUsers (db : DB) : List Nat :=
  sortAsc ((allWeightedInteractions db).map (fun r => r.1)).dedup

/-- The column index of the pivoted user-item matrix: the distinct posts with
at least one interaction, ascending. -/
def matrixPosts (db : DB) : List Nat :=
  sortAsc ((allWeightedInteractions db).map (fun r => r.2.1)).dedup

/-- One cell of the user-item matrix: the `groupby(['user_id',
'post_id']).sum()` of the weighted values (absent pairs are `fillna(0)`). -/
def matrixCell (db : DB) (u p : Nat) : ℚ :=
  (((allWeightedInteractions db).filter (fun r => r.1 = u ∧ r.2.1 = p)).map
    (fun r => r.2.2)).sum

/-- Dot product of two users' matrix rows. -/
def rowDot (db : DB) (u v : Nat) : ℚ :=
  ((matrixPosts db).map (fun p => matrixCell db u p * matrixCell db v p)).sum

/-- `cosine_similarity` between two matrix rows, embedded as the SQUARE of the
cosine.  The cosine itself, `dot/(‖u‖·‖v‖)`, is irrational in general; its
square `dot²/(‖u‖²·‖v‖²)` is rational.  All matrix entries are non-negative,
so every cosine here lies in `[0, 1]` and `x ↦ x²` is strictly monotone on
that range: the squared cosine induces the same ordering of candidates, is 0
exactly when the cosine is 0, and is 1 exactly when the cosine is 1.  Every
statement below about similarity values goes through this transfer.
(`sklearn` treats a zero-norm row as similarity 0.) -/
def cosineSimSq (db : DB) (u v : Nat) : ℚ :=
  let d := rowDot db u v
  let nu := rowDot db u u
  let nv := rowDot db v v
  if nu = 0 ∨ nv = 0 then 0 else d ^ 2 / (nu * nv)

/-- `CollaborativeRecommender.find_similar_users(user_id, n_similar)`.
`none` models the `AttributeError` the source raises when there are no
interactions at all (`build_user_item_matrix` returns `None` and
`self.user_similarity_df.index` dereferences `None`).  Otherwise: if the user
has no matrix row, the empty list; else every other matrix user paired with
its similarity, sorted by similarity descending and truncated by
`.head(n_similar)`.  The source sorts with `sort_values(ascending=False)`,
whose default quicksort leaves the relative order of equal similarities
unspecified; to stay executable this embedding must pick some concrete
order and uses the stable sort over the ascending user-id index, but no
theorem in this file depends on where ties land.  Similarity values are
squared cosines, see `cosineSimSq`. -/
def find_similar_users (db : DB) (u : Nat) (k : Nat) : Option (List (Nat × ℚ)) :=
  if allWeightedInteractions db = [] then none
  else if u ∉ matrixUsers db then some []
  else
    let others := (matrixUsers db).filter (fun v => ¬ v = u)
    some ((sortDescBy (fun e => e.2)
      (others.map (fun v => (v, cosineSimSq db u v)))).take k)

/-- The grouped rows of the similar-users posts query of
`recommend_posts_collaborative`: interaction rows of the given users, joined
to an existing post with an existing author, grouped by post (ascending key
order), producing `(post_id, interaction_count, avg_interaction_weight)`,
ordered by `interaction_count DESC, avg_interaction_weight DESC`. -/
def similarUsersPostRows (db : DB) (simIds : List Nat) : List (Nat × Nat × ℚ) :=
  let rows := (allWeightedInteractions db).filter (fun r =>
    r.1 ∈ simIds ∧ db.posts.any (fun p => p.id = r.2.1 ∧ p.userId ∈ db.users))
  let pids := sortAsc (rows.map (fun r => r.2.1)).dedup
  let groups := pids.map (fun pid =>
    let mine := rows.filter (fun r => r.2.1 = pid)
    (pid, mine.length, ((mine.map (fun r => r.2.2)).sum / (mine.length : ℚ))))
  sortDescBy2 (fun g => (g.2.1 : ℚ)) (fun g => g.2.2) groups

/-- `CollaborativeRecommender.recommend_posts_collaborative(user_id, n)`.
`none` propagates the `find_similar_users` failure mode.  Output pairs are
`(post_id, popularity_score)` with `popularity_score = interaction_count *
avg_interaction_weight`; the loop keeps rows whose post the target user has
not interacted with, stopping once `n` recommendations are collected. -/
def recommend_posts_collaborative (db : DB) (u n : Nat) :
    Option (List (Nat × ℚ)) :=
  (find_similar_users db u 20).map (fun sims =>
    if sims.isEmpty then []
    else
      let simIds := (sims.take 10).map (fun e => e.1)
      let userPosts := interactedPostIds db u
      (similarUsersPostRows db simIds).foldl (fun acc r =>
        if r.1 ∉ userPosts ∧ acc.length < n then
          acc ++ [(r.1, (r.2.1 : ℚ) * r.2.2)]
        else acc) [])

/-! ## `travel_recommender/src/recommender/content_based.py` —
`ContentBasedRecommender.recommend_posts_content_based`

The travel subsystem has its own schema: a single `interactions` table with an
`interaction_type` column, and `post_tags`. -/

/-- A row of the travel `interactions` table. -/
structure TravelInteraction where
  userId : Nat
  postId : Nat
  kind : String
  stamp : Int
deriving DecidableEq, Repr

/-- A row of the travel `posts` table (the columns the embedded code reads). -/
structure TravelPost where
  id : Nat
  userId : Nat
  locationId : Option Nat := none
deriving DecidableEq, Repr

/-- A snapshot of the travel store. -/
structure TravelDB where
  users : List Nat
  posts : List TravelPost
  locations : List Location := []
  postTags : List (Nat × String) := []
  interactions : List TravelInteraction
deriving Repr

/-- `interaction_weights.get(interaction_type, 1.0)` of the content engine:
`{'like': 1.0, 'comment': 2.0, 'share': 3.0, 'save': 2.5}`. -/
def interactionWeight (kind : String) : ℚ :=
  if kind = "like" then 1
  else if kind = "comment" then 2
  else if kind = "share" then 3
  else if kind = "save" then 2.5
  else 1

/-- The location record of a post, via `posts JOIN locations` (absent when the
post is missing, has no `location_id`, or the location row is missing). -/
def postLocation (tdb : TravelDB) (pid : Nat) : Option Location :=
  (tdb.posts.find? (fun p => p.id = pid)).bind (fun p =>
    p.locationId.bind (fun lid => tdb.locations.find? (fun l => l.id = lid)))

/-- The `user_interactions` rows of `recommend_posts_content_based`:
`SELECT DISTINCT i.post_id, i.interaction_type, ..., pt.tag_name FROM
interactions i JOIN posts p ... LEFT JOIN post_tags pt ... WHERE i.user_id =
? ORDER BY i.timestamp DESC`.  Each interaction with an existing post yields
one row per tag of the post (or a single `none`-tag row when the post has no
tags); rows are ordered by interaction timestamp descending and deduplicated
(`DISTINCT`). -/
def userInteractionRows (tdb : TravelDB) (u : Nat) :
    List (Nat × String × Option String) :=
  let ints := sortDescBy (fun i => (i.stamp : ℚ))
    (tdb.interactions.filter (fun i =>
      i.userId = u ∧ tdb.posts.any (fun p => p.id = i.postId)))
  (ints.flatMap (fun i =>
    let tags := (tdb.postTags.filter (fun t => t.1 = i.postId)).map
      (fun t => t.2)
    if tags.isEmpty then [(i.postId, i.kind, (none : Option String))]
    else tags.map (fun t => (i.postId, i.kind, some t)))).dedup

/-- Pointwise-updated preference map (`prefs[key] = prefs.get(key, 0) + w`);
a key is present in the Python dict exactly when its accumulated value here
is positive, since every interaction weight is positive. -/
def bumpPref (f : String → ℚ) (key : String) (w : ℚ) : String → ℚ :=
  fun s => if s = key then f s + w else f s

/-- The user preference profiles of `recommend_posts_content_based`: one pass
over the interaction rows accumulating the interaction-kind weight onto the
row post's location name, country and category (each only when the joined
location detail row exists and the attribute is a nonempty string, matching
`if loc_name:` etc.). -/
def buildPrefs (tdb : TravelDB) (rows : List (Nat × String × Option String)) :
    (String → ℚ) × (String → ℚ) × (String → ℚ) :=
  rows.foldl (fun prefs row =>
    match postLocation tdb row.1 with
    | none => prefs
    | some l =>
      let w := interactionWeight row.2.1
      let f₁ := if l.name = "" then prefs.1 else bumpPref prefs.1 l.name w
      let f₂ := if l.country = "" then prefs.2.1 else bumpPref prefs.2.1 l.country w
      let f₃ := if l.category = "" then prefs.2.2 else bumpPref prefs.2.2 l.category w
      (f₁, f₂, f₃))
    (fun _ => 0, fun _ => 0, fun _ => 0)

/-- The `location_bonus` of a candidate post: `prefs[attr] * factor` for each
of the three attributes present in the preference dict (`if rec_location in
user_location_preferences:` — key presence is positivity of the accumulated
weight, see `bumpPref`). -/
def locationBonus (tdb : TravelDB)
    (prefs : (String → ℚ) × (String → ℚ) × (String → ℚ)) (pid : Nat) : ℚ :=
  match postLocation tdb pid with
  | none => 0
  | some l =>
    (if 0 < prefs.1 l.name then prefs.1 l.name * 0.3 else 0)
      + (if 0 < prefs.2.1 l.country then prefs.2.1 l.country * 0.2 else 0)
      + (if 0 < prefs.2.2 l.category then prefs.2.2 l.category * 0.4 else 0)

/-- The accumulation loop of `recommend_posts_content_based`: for every
interaction row, every similar post `find_similar_posts` returns for the row's
post (the TF-IDF similarity oracle is the parameter `oracle`, called with
`n_similar=20` in the source) that the user has not already seen is scored
with `similarity * weight + location_bonus`, accumulated in the
insertion-ordered dict `similar_posts_scores`. -/
def similarPostsScores (tdb : TravelDB) (oracle : Nat → List (Nat × ℚ))
    (rows : List (Nat × String × Option String)) (seen : List Nat)
    (prefs : (String → ℚ) × (String → ℚ) × (String → ℚ)) : List (Nat × ℚ) :=
  rows.foldl (fun m row =>
    let w := interactionWeight row.2.1
    (oracle row.1).foldl (fun m sp =>
      if sp.1 ∈ seen then m
      else
        let m := if dictContains m sp.1 then m else m ++ [(sp.1, 0)]
        dictAdd m sp.1 (sp.2 * w + locationBonus tdb prefs sp.1)) m) []

/-- `ContentBasedRecommender.recommend_posts_content_based(user_id, n)`.
Output pairs are `(post_id, similarity_score)`.  The final lookup
`_get_post_details` keeps only posts that exist and whose author exists
(`posts JOIN users`). -/
def recommend_posts_content_based (tdb : TravelDB)
    (oracle : Nat → List (Nat × ℚ)) (u n : Nat) : List (Nat × ℚ) :=
  if tdb.users.count u = 0 then []
  else
    let rows := userInteractionRows tdb u
    if rows.isEmpty then []
    else
      let seen := rows.map (fun r => r.1)
      let prefs := buildPrefs tdb rows
      let m := similarPostsScores tdb oracle rows seen prefs
      let ids := ((sortDescBy (fun e => e.2) m).map (fun e => e.1)).take n
      ids.filterMap (fun pid =>
        if tdb.posts.any (fun p => p.id = pid ∧ p.userId ∈ tdb.users) then
          some (pid, ((m.find? (fun e => e.1 = pid)).map (fun e => e.2)).getD 0)
        else none)

/-! ## `backend/social_hub_recommender_fixed.py` — `SocialHubRecommender`

The functions below take the wall-clock second `t` (the source's
`int(time.time())`) as an explicit parameter wherever the source reads it. -/

/-- `SocialHubRecommender._find_similar_users`: other users grouped by the
number of interaction rows they have on posts the target user interacted with
(`GROUP BY` in ascending user-id order), kept when that count is at least 2
(`HAVING common_interactions >= 2`), ordered by the count descending,
truncated to 10, each paired with the similarity
`min(common_interactions / 10.0, 1.0)`. -/
def findSimilarUsersFixed (db : DB) (u : Nat) : List (Nat × ℚ) :=
  let userPosts := interactedPostIds db u
  let rows := (db.likes ++ db.comments ++ db.shares).filter (fun r =>
    r.2 ∈ userPosts ∧ ¬ r.1 = u)
  let uids := sortAsc (rows.map (fun r => r.1)).dedup
  let groups := (uids.map (fun v => (v, rows.countP (fun r => r.1 = v)))).filter
    (fun g => 2 ≤ g.2)
  ((sortDescBy (fun g => ((g.2 : ℚ))) groups).take 10).map
    (fun g => (g.1, min ((g.2 : ℚ) / 10) 1))

/-- The per-similar-user query of `_get_collaborative_recommendations`: the
distinct posts the similar user liked/commented/shared, joined to an existing
post with an existing author, excluding `user_posts`, ordered by
`likes_count + comments_count + shares_count` descending, `LIMIT 2`. -/
def similarUserTopPosts (db : DB) (sid : Nat) (userPosts : List Nat) :
    List Post :=
  let pids := interactedPostIds db sid
  let posts := db.posts.filter (fun p =>
    p.id ∈ pids ∧ p.userId ∈ db.users ∧ p.id ∉ userPosts)
  (sortDescBy (fun p => (engagement p : ℚ)) posts).take 2

/-- `SocialHubRecommender._get_collaborative_recommendations(user_id,
user_posts, limit)`: the similar-user list is rotated by
`seed = int(time.time()) % len(similar_users)` and the first three rotated
users each contribute up to two posts (stopping at `limit`), scored
`total_interactions * similarity_score`. -/
def getCollaborativeRecommendationsFixed (db : DB) (u : Nat)
    (userPosts : List Nat) (limit : Nat) (t : Nat) : List (Nat × ℚ) :=
  let sims := findSimilarUsersFixed db u
  if sims.isEmpty then []
  else
    let seed := t % sims.length
    let rotated := sims.drop seed ++ sims.take seed
    (rotated.take 3).foldl (fun acc su =>
      (similarUserTopPosts db su.1 userPosts).foldl (fun acc2 p =>
        if limit ≤ acc2.length then acc2
        else acc2 ++ [(p.id, (engagement p : ℚ) * su.2)]) acc) []

/-- The location record joined to a backend post via `LEFT JOIN locations`. -/
def locationOfPost (db : DB) (p : Post) : Option Location :=
  p.locationId.bind (fun lid => db.locations.find? (fun l => l.id = lid))

/-- The `user_interaction_posts` rows of
`_get_content_based_recommendations`: distinct `(post, interaction_type)`
pairs of the user over existing posts, ordered by `p.created_at DESC`,
`LIMIT interaction_limit`. -/
def userInteractionPostRowsFixed (db : DB) (u : Nat) (il : Nat) :
    List (Post × String) :=
  let rows := (db.likes.filter (fun r => r.1 = u)).map (fun r => (r.2, "like"))
    ++ (db.comments.filter (fun r => r.1 = u)).map (fun r => (r.2, "comment"))
    ++ (db.shares.filter (fun r => r.1 = u)).map (fun r => (r.2, "share"))
  let joined := rows.filterMap (fun r =>
    (db.posts.find? (fun p => p.id = r.1)).map (fun p => (p, r.2)))
  (sortDescBy (fun pr => ((pr.1.createdDay : ℚ))) joined.dedup).take il

/-- Insertion-ordered preference dict of the fixed content engine
(`prefs[key] = prefs.get(key, 0) + weight`); key order matters because the
source reads `list(prefs.keys())[:2]`. -/
def bumpAssoc (m : List (String × ℚ)) (k : String) (w : ℚ) :
    List (String × ℚ) :=
  if m.any (fun e => e.1 = k) then
    m.map (fun e => if e.1 = k then (e.1, e.2 + w) else e)
  else m ++ [(k, w)]

/-- `SocialHubRecommender._get_content_based_recommendations(user_id,
user_posts, limit)`: the window of interaction rows depends on the wall
clock (`focus_recent = (int(time.time()) % 4) < 2`, `interaction_limit = 3`
or `7`); preferences accumulate `{'like': 1, 'comment': 2, 'share': 3}`
weights onto location name / country / category of the windowed posts; the
candidate query keeps existing-author posts matching any of the top-2
preferred names/countries/categories, excludes `user_posts`, orders by raw
engagement descending and truncates to `limit` (it runs only when some
preference exists and `user_posts` is nonempty). -/
def getContentBasedRecommendationsFixed (db : DB) (u : Nat)
    (userPosts : List Nat) (limit : Nat) (t : Nat) : List (Nat × ℚ) :=
  let il := if t % 4 < 2 then 3 else 7
  let rows := userInteractionPostRowsFixed db u il
  if rows.isEmpty then []
  else
    let prefs := rows.foldl (fun prefs pr =>
      let w : ℚ := if pr.2 = "like" then 1 else if pr.2 = "comment" then 2
        else if pr.2 = "share" then 3 else 1
      match locationOfPost db pr.1 with
      | none => prefs
      | some l =>
        let f₁ := if l.name = "" then prefs.1 else bumpAssoc prefs.1 l.name w
        let f₂ := if l.country = "" then prefs.2.1
          else bumpAssoc prefs.2.1 l.country w
        let f₃ := if l.category = "" then prefs.2.2
          else bumpAssoc prefs.2.2 l.category w
        (f₁, f₂, f₃)) (([], [], []) : List (String × ℚ) × List (String × ℚ) × List (String × ℚ))
    let topLocs := (prefs.1.map (fun e => e.1)).take 2
    let topCountries := (prefs.2.1.map (fun e => e.1)).take 2
    let topCats := (prefs.2.2.map (fun e => e.1)).take 2
    if (¬ prefs.1 = [] ∨ ¬ prefs.2.1 = [] ∨ ¬ prefs.2.2 = []) ∧ ¬ userPosts = [] then
      let locOk : Post → Bool := fun p =>
        match locationOfPost db p with
        | some l => l.name ∈ topLocs ∨ l.country ∈ topCountries ∨
            l.category ∈ topCats
        | none => false
      let cands := db.posts.filter (fun p =>
        decide (p.userId ∈ db.users) && locOk p && decide (p.id ∉ userPosts))
      ((sortDescBy (fun p => (engagement p : ℚ)) cands).take limit).map
        (fun p => (p.id, (engagement p : ℚ)))
    else []

/-- A candidate entering `_apply_intelligent_diversity`: author id
(`rec['user']['id']`), location (`None` embedded as `none`), media type,
age in days (`(now - created_at).days`; `none` models an unparseable
`created_at`, whose recency bonus the source skips), and
`rec.get('popularity_score', 0)`. -/
structure FCand where
  id : Nat := 0
  authorId : Nat
  location : Option String := none
  mediaType : String := "image"
  daysOld : Option Int := none
  popularity : ℚ := 0
deriving DecidableEq, Repr

/-- The loop of `_apply_intelligent_diversity`: one pass over the candidates
carrying the `used_users` set, the `used_locations` set and the
`content_type_counts` dict, emitting each candidate with
`diversity_score = bonus + rec.get('popularity_score', 0)`. -/
def diversityGo (limit : Nat) :
    List FCand → List Nat → List String → (String → Nat) →
      List (FCand × ℚ) → List (FCand × ℚ)
  | [], _, _, _, acc => acc
  | c :: rest, usedUsers, usedLocs, counts, acc =>
    let s₁ : ℚ := if c.authorId ∉ usedUsers then 3
      else if usedUsers.length < 3 then 1 else 0
    let usedUsers₁ := if c.authorId ∉ usedUsers then usedUsers ++ [c.authorId]
      else usedUsers
    let s₂ : ℚ := match c.location with
      | some loc => if ¬ loc = "" ∧ loc ∉ usedLocs then 2 else 0
      | none => 0
    let usedLocs₁ := match c.location with
      | some loc => if ¬ loc = "" ∧ loc ∉ usedLocs then usedLocs ++ [loc]
        else usedLocs
      | none => usedLocs
    let s₃ : ℚ := if counts c.mediaType < limit / 2 then 1 else 0
    let counts₁ := if counts c.mediaType < limit / 2 then
        (fun ty => if ty = c.mediaType then counts ty + 1 else counts ty)
      else counts
    let s₄ : ℚ := match c.daysOld with
      | some d => if 1 ≤ d ∧ d ≤ 7 then 2 else if d ≤ 30 then 1 else 0
      | none => 0
    diversityGo limit rest usedUsers₁ usedLocs₁ counts₁
      (acc ++ [(c, s₁ + s₂ + s₃ + s₄ + c.popularity)])

/-- `SocialHubRecommender._apply_intelligent_diversity(recommendations,
limit)`: score every candidate, sort by `diversity_score` descending
(`list.sort(..., reverse=True)`, stable) and truncate to `limit`. -/
def applyIntelligentDiversity (recs : List FCand) (limit : Nat) :
    List (FCand × ℚ) :=
  (sortDescBy (fun e => e.2)
    (diversityGo limit recs [] [] (fun _ => 0) [])).take limit

/-! ## Basic lemmas -/

theorem length_sortDescBy {α : Type} (key : α → ℚ) (l : List α) :
    (sortDescBy key l).length = l.length := by
  simp [sortDescBy]

theorem mem_sortDescBy {α : Type} (key : α → ℚ) (l : List α) (x : α) :
    x ∈ sortDescBy key l ↔ x ∈ l :=
  (List.perm_insertionSort _ l).mem_iff

theorem length_getPopularPosts_le (db : DB) (u n : Nat) :
    (getPopularPosts db u n).length ≤ n := by
  simp only [getPopularPosts, List.length_map, List.length_take]
  exact min_le_left _ _

theorem mem_getPopularPosts (db : DB) (u n pid : Nat)
    (h : pid ∈ getPopularPosts db u n) : pid ∉ interactedPostIds db u := by
  simp only [getPopularPosts, List.mem_map] at h
  obtain ⟨p, hp, rfl⟩ := h
  have hp' := (mem_sortDescBy _ _ _).mp (List.mem_of_mem_take hp)
  simp only [List.mem_filter, decide_eq_true_eq] at hp'
  exact hp'.2.2

/-! ## Claim C1 — outcome for a nonexistent user -/

/-- Snapshot used for C1: a single user `1` with no content at all. -/
def dbC1 : DB := { users := [1], posts := [], likes := [], comments := [], shares := [] }

/-- **C1, counterexample.**  The claim says `recommendItems(nonexistentUserId,
5)` yields a distinct `UserNotFound` outcome, "not an empty list".  In the
code the nonexistent-user early return is `return []`: on `dbC1` the call for
the nonexistent user `99` returns the plain empty list — the very same value
returned for the existing user `1`, for whom every strategy is empty.  No
caller-visible `UserNotFound` marker exists. -/
theorem c1_counterexample :
    userCount dbC1 99 = 0 ∧
      recommend_posts dbC1 (.ok []) (.ok []) 99 5 = [] ∧
      recommend_posts dbC1 (.ok []) (.ok []) 1 5 = [] := by
  refine ⟨rfl, rfl, ?_⟩
  simp [recommend_posts, recommendPostsCore, effectiveCollabRecs, caughtRecs,
    userCount, interactionCount, getPopularPosts, interactedPostIds, dbC1,
    sortDescBy, minInteractionsForCollaborative]

/-- **C1, amended.**  Calling the post-recommendation entry point with a
userId that does not exist in the users table returns the empty list —
indistinguishable from the empty-recommendation outcome of an existing user;
for every user the caller-visible result is a list, possibly empty. -/
theorem c1_amended (db : DB) (contentRes collabRes : Except String (List Nat))
    (u n : Nat) (h : userCount db u = 0) :
    recommend_posts db contentRes collabRes u n = [] := by
  simp [recommend_posts, recommendPostsCore, h]

theorem c1_witness : recommend_posts dbC1 (.ok [3, 4]) (.error "boom") 7 2 = [] :=
  c1_amended dbC1 (.ok [3, 4]) (.error "boom") 7 2 (by decide)

/-! ## Claim C7 — engine exceptions degrade to zero candidates -/

/-- Snapshot used for the C7 witness: one user, no data. -/
def dbC7 : DB := { users := [1], posts := [], likes := [], comments := [], shares := [] }

/-- **C7.**  An exception raised by either sub-engine is caught and treated
exactly as that engine returning zero candidates: the caller-visible result
for an erroring engine equals the result for the same engine returning `[]`,
for every snapshot, user and count; and when both engines throw, an existing
user still gets a list — the popularity fallback. -/
theorem c7_theorem :
    (∀ (db : DB) (res : Except String (List Nat)) (e : String) (u n : Nat),
        recommend_posts db (.error e) res u n
          = recommend_posts db (.ok []) res u n) ∧
    (∀ (db : DB) (res : Except String (List Nat)) (e : String) (u n : Nat),
        recommend_posts db res (.error e) u n
          = recommend_posts db res (.ok []) u n) ∧
    (∀ (db : DB) (e₁ e₂ : String) (u n : Nat), u ∈ db.users →
        recommendPostsCore db (.error e₁) (.error e₂) u n
          = some (.popularityFallback, getPopularPosts db u n)) := by
  refine ⟨fun db res e u n => rfl, fun db res e u n => rfl,
    fun db e₁ e₂ u n hu => ?_⟩
  have h0 : ¬ userCount db u = 0 := by
    simpa [userCount, List.count_eq_zero] using hu
  simp [recommendPostsCore, effectiveCollabRecs, caughtRecs, h0]

theorem c7_witness :
    recommendPostsCore dbC7 (.error "x") (.error "y") 1 4
      = some (.popularityFallback, getPopularPosts dbC7 1 4) :=
  c7_theorem.2.2 dbC7 "x" "y" 1 4 (by decide)

/-! ## Claim C10 — output size bound -/

/-- **C10.**  For every existing user and every requested count `n ≥ 1`, the
post-recommendation operation returns at most `n` recommendations, whichever
strategy is chosen. -/
theorem c10_theorem (db : DB) (contentRes collabRes : Except String (List Nat))
    (u n : Nat) (hu : u ∈ db.users) (hn : 1 ≤ n) :
    (recommend_posts db contentRes collabRes u n).length ≤ n := by
  unfold recommend_posts
  rcases hcore : recommendPostsCore db contentRes collabRes u n with _ | ⟨a, l⟩
  · simp
  · dsimp only
    simp only [recommendPostsCore] at hcore
    split_ifs at hcore <;> cases hcore <;>
      first
        | (simp only [combinePostRecommendations, List.length_map,
            List.length_take]; exact min_le_left _ _)
        | exact length_getPopularPosts_le db u n

theorem c10_witness :
    (recommend_posts dbC7 (.ok [11, 12, 13]) (.ok []) 1 2).length ≤ 2 :=
  c10_theorem dbC7 (.ok [11, 12, 13]) (.ok []) 1 2 (by decide) (by decide)

/-! ## Claim C2 — strategy selection rule -/

/-- **C2.**  Strategy selection of `recommend_posts` for an existing user:
with exactly 2 recorded interactions the strategy is never `Hybrid` (the
collaborative engine is not even consulted below the threshold 3); with
exactly 3 interactions and both engines returning at least one candidate the
strategy is `Hybrid`; when only one (effective) candidate list is nonempty
that list is returned truncated under the matching single-engine strategy;
and when both are empty the popularity fallback is returned. -/
theorem c2_theorem (db : DB) (contentRes collabRes : Except String (List Nat))
    (u n : Nat) (hu : u ∈ db.users) :
    (interactionCount db u = 2 →
      ∀ a l, recommendPostsCore db contentRes collabRes u n = some (a, l) →
        ¬ a = .hybrid) ∧
    (interactionCount db u = 3 → ∀ kl cl,
      collabRes = .ok kl → ¬ kl = [] → contentRes = .ok cl → ¬ cl = [] →
      recommendPostsCore db contentRes collabRes u n
        = some (.hybrid, (combinePostRecommendations kl cl n).map (fun e => e.1))) ∧
    (effectiveCollabRecs db collabRes u = [] → ¬ caughtRecs contentRes = [] →
      recommendPostsCore db contentRes collabRes u n
        = some (.contentOnly, (caughtRecs contentRes).take n)) ∧
    (¬ effectiveCollabRecs db collabRes u = [] → caughtRecs contentRes = [] →
      recommendPostsCore db contentRes collabRes u n
        = some (.collaborativeOnly, (effectiveCollabRecs db collabRes u).take n)) ∧
    (effectiveCollabRecs db collabRes u = [] → caughtRecs contentRes = [] →
      recommendPostsCore db contentRes collabRes u n
        = some (.popularityFallback, getPopularPosts db u n)) := by
  have h0 : ¬ userCount db u = 0 := by
    simpa [userCount, List.count_eq_zero] using hu
  refine ⟨?_, ?_, ?_, ?_, ?_⟩
  · intro h2 a l hcore
    have hcoll : effectiveCollabRecs db collabRes u = [] := by
      simp [effectiveCollabRecs, h2, minInteractionsForCollaborative]
    simp only [recommendPostsCore, hcoll] at hcore
    rw [if_neg h0] at hcore
    simp only [List.length_nil, lt_self_iff_false, false_and, if_false] at hcore
    split_ifs at hcore <;> cases hcore <;> decide
  · intro h3 kl cl hk hkne hc hcne
    have hcoll : effectiveCollabRecs db collabRes u = kl := by
      simp [effectiveCollabRecs, h3, minInteractionsForCollaborative, hk,
        caughtRecs]
    unfold recommendPostsCore
    rw [if_neg h0]
    simp only [hcoll, hc, caughtRecs]
    rw [if_pos]
    exact ⟨List.length_pos.mpr hkne, List.length_pos.mpr hcne⟩
  · intro hcoll hcont
    unfold recommendPostsCore
    rw [if_neg h0]
    simp only [hcoll]
    have : ¬ (0 : Nat) < ([] : List Nat).length := by simp
    rw [if_neg (by simp), if_neg (by simp),
      if_pos (List.length_pos.mpr hcont)]
  · intro hcoll hcont
    unfold recommendPostsCore
    rw [if_neg h0]
    simp only [hcont]
    rw [if_neg (by simp), if_pos (List.length_pos.mpr hcoll)]
  · intro hcoll hcont
    unfold recommendPostsCore
    rw [if_neg h0]
    simp only [hcoll, hcont]
    rw [if_neg (by simp), if_neg (by simp), if_neg (by simp)]

/-- Snapshot used for the C2 witness: user `1` with exactly three recorded
interactions (two likes and one comment). -/
def dbC2 : DB :=
  { users := [1], posts := [], likes := [(1, 5), (1, 6)],
    comments := [(1, 7)], shares := [] }

theorem c2_witness :
    recommendPostsCore dbC2 (.ok [8]) (.ok [7]) 1 5
      = some (.hybrid, (combinePostRecommendations [7] [8] 5).map (fun e => e.1)) :=
  (c2_theorem dbC2 (.ok [8]) (.ok [7]) 1 5 (by decide)).2.1 (by decide)
    [7] [8] rfl (by decide) rfl (by decide)

/-! ## Claims C3 and C9 — the fusion formula

`rankScore` is the rank-normalized score of the specification:
`(listLength - rankIndex) / listLength` for a member, `0` for a
non-member. -/

def rankScore (l : List Nat) (pid : Nat) : ℚ :=
  if pid ∈ l then ((l.length - l.indexOf pid : Nat) : ℚ) / (l.length : ℚ)
  else 0

/-- The fused combined score of an item: the value stored for it by the two
loops of `_combine_post_recommendations` (0 when absent). -/
def hybridCombinedScore (collabRecs contentRecs : List Nat) (pid : Nat) : ℚ :=
  let m := contentPhase contentRecs.length 0 contentRecs
    (collabPhase collabRecs.length 0 collabRecs [])
  ((m.find? (fun e => e.1 = pid)).map (fun e => e.2)).getD 0

/-- The fusion output as the claim words it: the union of the candidate
lists, each item scored `0.6·rankScore + 0.4·rankScore`, sorted by combined
score descending with ties broken by item id ASCENDING, truncated. -/
def specCombineById (collabRecs contentRecs : List Nat) (n : Nat) :
    List (Nat × ℚ) :=
  let keys := (collabRecs ++ contentRecs).dedup
  (List.insertionSort
    (fun a b => b.2 < a.2 ∨ (b.2 = a.2 ∧ a.1 ≤ b.1))
    (keys.map (fun pid =>
      (pid, collaborativeWeight * rankScore collabRecs pid
        + contentWeight * rankScore contentRecs pid)))).take n

/-- The fusion output with the tie rule the code actually implements: same
scores, stable sort over dict insertion order — all collaborative candidates
in collaborative rank order, then the content-only candidates in content rank
order. -/
def specCombineStable (collabRecs contentRecs : List Nat) (n : Nat) :
    List (Nat × ℚ) :=
  let keys := collabRecs ++ contentRecs.filter (fun pid => ¬ pid ∈ collabRecs)
  (sortDescBy (fun e => e.2)
    (keys.map (fun pid =>
      (pid, collaborativeWeight * rankScore collabRecs pid
        + contentWeight * rankScore contentRecs pid)))).take n

theorem dictContains_append (m₁ m₂ : List (Nat × ℚ)) (k : Nat) :
    dictContains (m₁ ++ m₂) k = (dictContains m₁ k || dictContains m₂ k) := by
  simp [dictContains, List.any_append]

theorem dictContains_dictAdd (m : List (Nat × ℚ)) (k : Nat) (v : ℚ) (q : Nat) :
    dictContains (dictAdd m k v) q = dictContains m q := by
  unfold dictContains dictAdd
  rw [List.any_map]
  congr 1
  funext e
  by_cases h : e.1 = k <;> simp [h]

theorem dictSet_not_contains (m : List (Nat × ℚ)) (k : Nat) (v : ℚ)
    (h : ¬ dictContains m k = true) : dictSet m k v = m ++ [(k, v)] := by
  simp [dictSet, h]

theorem dictContains_singleton (k q : Nat) (v : ℚ) :
    dictContains [(k, v)] q = decide (k = q) := by
  simp [dictContains]

/-- The first fusion loop over a duplicate-free list whose keys are fresh
appends one entry per candidate, in order. -/
theorem collabPhase_eq (L : Nat) :
    ∀ (c : List Nat) (i : Nat) (m : List (Nat × ℚ)), c.Nodup →
      (∀ pid ∈ c, ¬ dictContains m pid = true) →
      collabPhase L i c m
        = m ++ c.map (fun pid => (pid, collabContribution L (i + c.indexOf pid)))
  | [], i, m, _, _ => by simp [collabPhase]
  | pid :: rest, i, m, hnd, hfresh => by
    have hpid : ¬ dictContains m pid = true := hfresh pid (by simp)
    have hne : ∀ q ∈ rest, q ≠ pid := by
      intro q hq
      rintro rfl
      exact (List.nodup_cons.mp hnd).1 hq
    have hrest : ∀ q ∈ rest,
        ¬ dictContains (m ++ [(pid, collabContribution L i)]) q = true := by
      intro q hq
      have hq1 : dictContains m q = false := by
        simpa using hfresh q (by simp [hq])
      simp [dictContains_append, hq1, dictContains_singleton,
        Ne.symm (hne q hq)]
    rw [collabPhase, dictSet_not_contains m pid _ hpid,
      collabPhase_eq L rest (i + 1) _ (List.nodup_cons.mp hnd).2 hrest]
    rw [List.append_assoc]
    congr 1
    simp only [List.map_cons, List.indexOf_cons_self, Nat.add_zero,
      List.cons_append, List.nil_append]
    congr 1
    refine List.map_congr_left (fun q hq => ?_)
    have hstep : i + (pid :: rest).indexOf q = i + 1 + rest.indexOf q := by
      rw [List.indexOf_cons_ne _ (Ne.symm (hne q hq))]
      omega
    rw [hstep]

/-- The per-item amount the second fusion loop adds to keys already present
(`0` for items outside the content list). -/
def contentAddition (L i : Nat) (d : List Nat) (k : Nat) : ℚ :=
  if k ∈ d then contentContribution L (i + d.indexOf k) else 0

/-- The second fusion loop adds the content contribution to every key already
present and appends the remaining content candidates in order. -/
theorem contentPhase_eq (L : Nat) :
    ∀ (d : List Nat) (i : Nat) (m : List (Nat × ℚ)), d.Nodup →
      contentPhase L i d m
        = m.map (fun e => (e.1, e.2 + contentAddition L i d e.1))
          ++ (d.filter (fun pid => ¬ dictContains m pid)).map
              (fun pid => (pid, contentContribution L (i + d.indexOf pid)))
  | [], i, m, _ => by
    simp [contentPhase, contentAddition]
  | pid :: rest, i, m, hnd => by
    have hpidrest : pid ∉ rest := (List.nodup_cons.mp hnd).1
    have hne : ∀ q ∈ rest, q ≠ pid := fun q hq h => hpidrest (h ▸ hq)
    have hidx : ∀ q ∈ rest, i + (pid :: rest).indexOf q = i + 1 + rest.indexOf q := by
      intro q hq
      rw [List.indexOf_cons_ne _ (Ne.symm (hne q hq))]
      omega
    have hAdd : ∀ k, contentAddition L i (pid :: rest) k
        = (if k = pid then contentContribution L i else 0)
          + contentAddition L (i + 1) rest k := by
      intro k
      by_cases hk : k = pid
      · subst hk
        simp [contentAddition, hpidrest, List.indexOf_cons_self]
      · simp only [contentAddition, if_neg hk]
        by_cases hk2 : k ∈ rest
        · rw [if_pos (List.mem_cons_of_mem _ hk2), if_pos hk2, hidx k hk2,
            zero_add]
        · rw [if_neg (by simp [hk, hk2]), if_neg hk2, zero_add]
    rw [contentPhase]
    by_cases hmem : dictContains m pid = true
    · rw [if_pos hmem, contentPhase_eq L rest (i + 1) _ (List.nodup_cons.mp hnd).2]
      congr 1
      · unfold dictAdd
        rw [List.map_map]
        refine List.map_congr_left (fun e _ => ?_)
        simp only [Function.comp_apply]
        by_cases he : e.1 = pid
        · rw [if_pos he, hAdd e.1, if_pos he]
          simp only [Prod.mk.injEq]
          exact ⟨trivial, by ring⟩
        · rw [if_neg he, hAdd e.1, if_neg he, zero_add]
      · have hfilter : rest.filter
              (fun q => ¬ dictContains (dictAdd m pid (contentContribution L i)) q)
            = rest.filter (fun q => ¬ dictContains m q) := by
          refine List.filter_congr (fun q _ => ?_)
          simp [dictContains_dictAdd]
        rw [hfilter, List.filter_cons_of_neg (by simp [hmem])]
        refine List.map_congr_left (fun q hq => ?_)
        rw [hidx q (List.mem_of_mem_filter hq)]
    · rw [if_neg hmem, dictSet_not_contains m pid _ hmem,
        contentPhase_eq L rest (i + 1) _ (List.nodup_cons.mp hnd).2]
      rw [List.map_append, List.filter_cons_of_pos (by simp [hmem]),
        List.append_assoc]
      congr 1
      · refine List.map_congr_left (fun e he' => ?_)
        rw [hAdd e.1]
        have he : ¬ e.1 = pid := by
          intro h
          refine hmem ?_
          unfold dictContains
          exact List.any_eq_true.mpr ⟨e, he', by simp [h]⟩
        rw [if_neg he, zero_add]
      · have hfilter : rest.filter
              (fun q => ¬ dictContains (m ++ [(pid, contentContribution L i)]) q)
            = rest.filter (fun q => ¬ dictContains m q) := by
          refine List.filter_congr (fun q hq => ?_)
          simp [dictContains_append, dictContains_singleton, Ne.symm (hne q hq)]
        simp only [List.map_cons, List.indexOf_cons_self, Nat.add_zero,
          List.cons_append, List.nil_append]
        rw [hfilter]
        have hA0 : contentAddition L (i + 1) rest pid = 0 := by
          simp [contentAddition, hpidrest]
        rw [hA0, add_zero]
        congr 1
        refine List.map_congr_left (fun q hq => ?_)
        rw [hidx q (List.mem_of_mem_filter hq)]

theorem rankScore_nonneg (l : List Nat) (pid : Nat) : 0 ≤ rankScore l pid := by
  unfold rankScore
  split
  · exact div_nonneg (Nat.cast_nonneg _) (Nat.cast_nonneg _)
  · exact le_refl 0

theorem collabContribution_rankScore (c : List Nat) (pid : Nat) (h : pid ∈ c) :
    collabContribution c.length (c.indexOf pid)
      = collaborativeWeight * rankScore c pid := by
  rw [collabContribution, rankScore, if_pos h]
  ring

theorem contentAddition_rankScore (d : List Nat) (pid : Nat) :
    contentAddition d.length 0 d pid = contentWeight * rankScore d pid := by
  by_cases h : pid ∈ d
  · rw [contentAddition, if_pos h, contentContribution, rankScore, if_pos h,
      Nat.zero_add]
    ring
  · rw [contentAddition, if_neg h, rankScore, if_neg h, mul_zero]

theorem dictContains_map_keys (keys : List Nat) (f : Nat → ℚ) (q : Nat) :
    dictContains (keys.map (fun k => (k, f k))) q = decide (q ∈ keys) := by
  by_cases h : q ∈ keys
  · simp [dictContains, List.any_eq_true, h]
  · simp [dictContains, List.any_eq_true, h]
    exact fun a ha hh => h (hh ▸ ha)

/-- Central characterization of the two fusion loops: on duplicate-free
candidate lists the resulting score dict is, in insertion order, every
collaborative candidate followed by the content-only candidates, each mapped
to `0.6·rankScore + 0.4·rankScore`. -/
theorem combine_map_eq (c d : List Nat) (hc : c.Nodup) (hd : d.Nodup) :
    contentPhase d.length 0 d (collabPhase c.length 0 c [])
      = (c ++ d.filter (fun pid => ¬ pid ∈ c)).map
          (fun pid => (pid, collaborativeWeight * rankScore c pid
            + contentWeight * rankScore d pid)) := by
  rw [collabPhase_eq c.length c 0 [] hc (by intro pid _; simp [dictContains]),
    List.nil_append, contentPhase_eq d.length d 0 _ hd, List.map_append]
  congr 1
  · rw [List.map_map]
    refine List.map_congr_left (fun pid hpid => ?_)
    simp only [Function.comp_apply, Nat.zero_add]
    rw [collabContribution_rankScore c pid hpid, contentAddition_rankScore]
  · have hfilt : d.filter
        (fun q => ¬ dictContains
          (c.map (fun pid => (pid, collabContribution c.length (0 + c.indexOf pid)))) q)
        = d.filter (fun q => ¬ q ∈ c) := by
      refine List.filter_congr (fun q _ => ?_)
      rw [dictContains_map_keys c _ q]
      by_cases h : q ∈ c <;> simp [h]
    rw [hfilt]
    refine List.map_congr_left (fun q hq => ?_)
    have hqd : q ∈ d := List.mem_of_mem_filter hq
    have hqc : ¬ q ∈ c := by
      have := List.of_mem_filter hq
      simpa using this
    have h1 : rankScore c q = 0 := by rw [rankScore, if_neg hqc]
    have h2 : contentContribution d.length (d.indexOf q)
        = contentWeight * rankScore d q := by
      rw [contentContribution, rankScore, if_pos hqd]
      ring
    simp only [Nat.zero_add, h1, mul_zero, zero_add, h2]

/-- **C3, counterexample.**  With collaborative candidates `[9, 5, 1]` and
content candidates `[3]`, items `5` (collaborative rank 1, weighted score
`(2/3)·0.6 = 0.4`) and `3` (content rank 0, weighted score `1·0.4 = 0.4`)
tie.  The claim prescribes the id-ascending tie-break `[9, 3, 5, 1]`; the
code's stable sort over dict insertion order returns `[9, 5, 3, 1]`. -/
theorem c3_counterexample :
    (combinePostRecommendations [9, 5, 1] [3] 10).map (fun e => e.1)
        = [9, 5, 3, 1] ∧
      (specCombineById [9, 5, 1] [3] 10).map (fun e => e.1) = [9, 3, 5, 1] ∧
      ¬ ([9, 5, 3, 1] : List Nat) = [9, 3, 5, 1] := by
  have i9 : List.indexOf 9 [9, 5, 1] = 0 := rfl
  have i5 : List.indexOf 5 [9, 5, 1] = 1 := rfl
  have i1 : List.indexOf 1 [9, 5, 1] = 2 := rfl
  have i3 : List.indexOf 3 [3] = 0 := rfl
  refine ⟨?_, ?_, by decide⟩ <;>
    norm_num [combinePostRecommendations, specCombineById, collabPhase,
      contentPhase, dictContains, dictSet, dictAdd, collabContribution,
      contentContribution, collaborativeWeight, contentWeight, sortDescBy,
      List.insertionSort, List.orderedInsert, rankScore, List.dedup,
      i9, i5, i1, i3]

/-- **C3, amended.**  The fusion is exactly as claimed — rank-normalized
scores `(L-i)/L`, weights 0.6/0.4, summed for items in both lists, sorted by
combined score descending, truncated — except for ties: equal combined
scores keep the dict insertion order (collaborative candidates in
collaborative rank order, then content-only candidates in content rank
order) instead of the claimed item-id-ascending order. -/
theorem c3_amended (c d : List Nat) (n : Nat) (hc : c.Nodup) (hd : d.Nodup) :
    combinePostRecommendations c d n = specCombineStable c d n := by
  simp only [combinePostRecommendations, specCombineStable]
  rw [combine_map_eq c d hc hd]

theorem c3_witness :
    combinePostRecommendations [2, 6] [4] 3 = specCombineStable [2, 6] [4] 3 :=
  c3_amended [2, 6] [4] 3 (by decide) (by decide)

theorem find?_map_keys (keys : List Nat) (f : Nat → ℚ) (pid : Nat) :
    (((keys.map (fun k => (k, f k))).find? (fun e => e.1 = pid)).map
        (fun e => e.2)).getD 0
      = if pid ∈ keys then f pid else 0 := by
  induction keys with
  | nil => simp
  | cons k rest ih =>
    rw [List.map_cons]
    by_cases h : k = pid
    · subst h
      rw [List.find?_cons_of_pos _ (by simp)]
      simp
    · rw [List.find?_cons_of_neg _ (by simp [h]), ih]
      have h' : ¬ pid = k := fun hh => h hh.symm
      simp [List.mem_cons, h']

theorem hybridCombinedScore_formula (c d : List Nat) (hc : c.Nodup)
    (hd : d.Nodup) (pid : Nat) :
    hybridCombinedScore c d pid
      = collaborativeWeight * rankScore c pid
        + contentWeight * rankScore d pid := by
  unfold hybridCombinedScore
  rw [combine_map_eq c d hc hd, find?_map_keys]
  split
  · rfl
  · rename_i hout
    have hnc : ¬ pid ∈ c := fun h => hout (List.mem_append.mpr (Or.inl h))
    have hnd : ¬ pid ∈ d := by
      intro h
      exact hout (List.mem_append.mpr (Or.inr (List.mem_filter.mpr
        ⟨h, by simpa using hnc⟩)))
    rw [rankScore, if_neg hnc, rankScore, if_neg hnd, mul_zero, mul_zero,
      add_zero]

/-- **C9.**  Monotonic fusion: if item `A` appears in both candidate lists
and item `B` appears in exactly one of them with a rank-normalized score in
that list no greater than `A`'s score in the same list, then `B`'s fused
combined score is at most `A`'s. -/
theorem c9_theorem (c d : List Nat) (A B : Nat) (hc : c.Nodup) (hd : d.Nodup)
    (hAc : A ∈ c) (hAd : A ∈ d)
    (hB : (B ∈ c ∧ ¬ B ∈ d ∧ rankScore c B ≤ rankScore c A)
        ∨ (B ∈ d ∧ ¬ B ∈ c ∧ rankScore d B ≤ rankScore d A)) :
    hybridCombinedScore c d B ≤ hybridCombinedScore c d A := by
  rw [hybridCombinedScore_formula c d hc hd A,
    hybridCombinedScore_formula c d hc hd B]
  have h0d : 0 ≤ rankScore d A := rankScore_nonneg d A
  have h0c : 0 ≤ rankScore c A := rankScore_nonneg c A
  have hw1 : (0 : ℚ) ≤ collaborativeWeight := by norm_num [collaborativeWeight]
  have hw2 : (0 : ℚ) ≤ contentWeight := by norm_num [contentWeight]
  rcases hB with ⟨_, hBd, hle⟩ | ⟨_, hBc, hle⟩
  · have hzd : rankScore d B = 0 := by rw [rankScore, if_neg hBd]
    rw [hzd, mul_zero, add_zero]
    have h1 := mul_le_mul_of_nonneg_left hle hw1
    nlinarith [mul_nonneg hw2 h0d]
  · have hzc : rankScore c B = 0 := by rw [rankScore, if_neg hBc]
    rw [hzc, mul_zero, zero_add]
    have h1 := mul_le_mul_of_nonneg_left hle hw2
    nlinarith [mul_nonneg hw1 h0c]

/-- Hypothesis instance for the C9 witness: in the content list `[3, 8]`,
item 8 (rank 1, score 1/2) scores no higher than item 3 (rank 0, score 1). -/
theorem c9_rank_ineq : rankScore [3, 8] 8 ≤ rankScore [3, 8] 3 := by
  have i8 : List.indexOf 8 [3, 8] = 1 := rfl
  have i3 : List.indexOf 3 [3, 8] = 0 := rfl
  norm_num [rankScore, i8, i3]

theorem c9_witness :
    hybridCombinedScore [3] [3, 8] 8 ≤ hybridCombinedScore [3] [3, 8] 3 :=
  c9_theorem [3] [3, 8] 3 8 (by decide) (by decide) (by decide) (by decide)
    (Or.inr ⟨by decide, by decide, c9_rank_ineq⟩)

/-! ## Claim C6 — `find_similar_users` -/

/-- Snapshot used for C6: users 1 and 2 each liked a different post, so their
matrix rows are orthogonal and their cosine similarity is exactly 0. -/
def dbC6 : DB :=
  { users := [1, 2], posts := [], likes := [(1, 10), (2, 20)],
    comments := [], shares := [] }

theorem find_similar_users_dbC6_eval :
    find_similar_users dbC6 1 5 = some [(2, 0)] := by
  have hne : ¬ allWeightedInteractions dbC6 = [] := by
    simp [allWeightedInteractions, dbC6]
  have hmem : (1 : Nat) ∈ matrixUsers dbC6 := by
    simp [matrixUsers, allWeightedInteractions, dbC6, sortAsc, List.dedup,
      List.insertionSort, List.orderedInsert]
  unfold find_similar_users
  rw [if_neg hne, if_neg (not_not_intro hmem)]
  norm_num [matrixUsers, matrixPosts, allWeightedInteractions, matrixCell,
    rowDot, cosineSimSq, sortAsc, sortDescBy, List.insertionSort,
    List.orderedInsert, dbC6, List.dedup]

/-- **C6, counterexample.**  The claim says the returned list "contains only
users with similarity strictly greater than 0".  The code has no such
filter: on `dbC6`, user 2 has cosine similarity exactly 0 to user 1 and is
returned anyway. -/
theorem c6_counterexample :
    find_similar_users dbC6 1 5 = some [(2, 0)] ∧
      ¬ (∀ p ∈ [((2 : Nat), (0 : ℚ))], 0 < p.2) := by
  refine ⟨find_similar_users_dbC6_eval, fun hall => ?_⟩
  exact absurd (hall (2, 0) (by simp)) (lt_irrefl 0)

/-- **C6, amended.**  `find_similar_users(userId, k)` returns an ordered list
of `(userId, similarity)` pairs that excludes the target user, is sorted by
similarity descending (the relative order of equal similarities is left to
pandas' unstable quicksort and is not asserted), has at most `k` entries,
and is empty when the target user has no row in the interaction matrix —
but it does NOT filter out zero similarities (and, when the interaction
store is empty, the call raises instead of returning a list, modelled by
`none`). -/
theorem c6_amended (db : DB) (u k : Nat) (l : List (Nat × ℚ))
    (h : find_similar_users db u k = some l) :
    (∀ p ∈ l, ¬ p.1 = u) ∧
      l.Pairwise (fun a b => b.2 ≤ a.2) ∧
      l.length ≤ k ∧
      (¬ u ∈ matrixUsers db → l = []) := by
  unfold find_similar_users at h
  by_cases h1 : allWeightedInteractions db = []
  · rw [if_pos h1] at h
    exact Option.noConfusion h
  rw [if_neg h1] at h
  by_cases h2 : u ∈ matrixUsers db
  swap
  · rw [if_pos h2] at h
    cases h
    simp
  · rw [if_neg (not_not_intro h2)] at h
    cases h
    refine ⟨?_, ?_, ?_, ?_⟩
    · intro p hp
      have hp1 := (mem_sortDescBy _ _ _).mp (List.mem_of_mem_take hp)
      obtain ⟨v, hv, rfl⟩ := List.mem_map.mp hp1
      simpa using List.of_mem_filter hv
    · haveI : IsTotal (Nat × ℚ) (fun a b => b.2 ≤ a.2) :=
        ⟨fun a b => le_total b.2 a.2⟩
      haveI : IsTrans (Nat × ℚ) (fun a b => b.2 ≤ a.2) :=
        ⟨fun _ _ _ hab hbc => le_trans hbc hab⟩
      exact List.Pairwise.sublist (List.take_sublist _ _)
        (List.sorted_insertionSort _ _)
    · simp
    · intro hmem
      exact absurd h2 hmem

theorem c6_witness :
    (∀ p ∈ [((2 : Nat), (0 : ℚ))], ¬ p.1 = 1) ∧
      ([((2 : Nat), (0 : ℚ))]).Pairwise (fun a b => b.2 ≤ a.2) ∧
      ([((2 : Nat), (0 : ℚ))]).length ≤ 5 ∧
      (¬ 1 ∈ matrixUsers dbC6 → [((2 : Nat), (0 : ℚ))] = []) :=
  c6_amended dbC6 1 5 [(2, 0)] find_similar_users_dbC6_eval

/-! ## Claim C5 — exclusion invariant -/

/-- The posts a user authored (`p.user_id = u`). -/
def authoredPostIds (db : DB) (u : Nat) : List Nat :=
  (db.posts.filter (fun p => p.userId = u)).map (fun p => p.id)

/-- The posts a travel-store user has interacted with (any kind). -/
def travelInteractedPostIds (tdb : TravelDB) (u : Nat) : List Nat :=
  (tdb.interactions.filter (fun i => i.userId = u)).map (fun i => i.postId)

/-- Snapshot used for the C5 counterexample: user 1 authored post 10 (which
user 2 liked, giving it a nonzero counter) and never interacted with
anything. -/
def dbC5 : DB :=
  { users := [1, 2], posts := [{ id := 10, userId := 1, likesCount := 1 }],
    likes := [(2, 10)], comments := [], shares := [] }

theorem recommend_posts_dbC5_eval :
    recommend_posts dbC5 (.ok []) (.ok []) 1 5 = [10] := by
  norm_num [recommend_posts, recommendPostsCore, userCount, interactionCount,
    effectiveCollabRecs, caughtRecs, getPopularPosts, interactedPostIds,
    sortDescBy, List.insertionSort, List.orderedInsert, engagement, dbC5,
    minInteractionsForCollaborative]

/-- **C5, counterexample.**  The claim says no returned item is one the user
authored.  On `dbC5` the popularity fallback recommends post 10 to user 1 —
the post user 1 authored: no query in the pipeline excludes the requesting
user's own posts. -/
theorem c5_counterexample :
    recommend_posts dbC5 (.ok []) (.ok []) 1 5 = [10] ∧
      10 ∈ authoredPostIds dbC5 1 :=
  ⟨recommend_posts_dbC5_eval, by decide⟩

theorem mem_keys_dictSet (m : List (Nat × ℚ)) (k : Nat) (v : ℚ) (e : Nat × ℚ)
    (h : e ∈ dictSet m k v) : e.1 ∈ m.map (fun x => x.1) ∨ e.1 = k := by
  unfold dictSet at h
  split_ifs at h
  · obtain ⟨x, hx, rfl⟩ := List.mem_map.mp h
    split_ifs <;> exact Or.inl (List.mem_map.mpr ⟨x, hx, rfl⟩)
  · rcases List.mem_append.mp h with h | h
    · exact Or.inl (List.mem_map.mpr ⟨e, h, rfl⟩)
    · simp only [List.mem_singleton] at h
      exact Or.inr (by rw [h])

theorem mem_keys_dictAdd (m : List (Nat × ℚ)) (k : Nat) (v : ℚ) (e : Nat × ℚ)
    (h : e ∈ dictAdd m k v) : e.1 ∈ m.map (fun x => x.1) := by
  obtain ⟨x, hx, rfl⟩ := List.mem_map.mp h
  split_ifs <;> exact List.mem_map.mpr ⟨x, hx, rfl⟩

theorem mem_keys_collabPhase (L : Nat) :
    ∀ (c : List Nat) (i : Nat) (m : List (Nat × ℚ)) (e : Nat × ℚ),
      e ∈ collabPhase L i c m → e.1 ∈ m.map (fun x => x.1) ∨ e.1 ∈ c
  | [], i, m, e, h => Or.inl (List.mem_map.mpr ⟨e, h, rfl⟩)
  | pid :: rest, i, m, e, h => by
    rcases mem_keys_collabPhase L rest (i + 1) _ e h with h1 | h1
    · obtain ⟨x, hx, hxe⟩ := List.mem_map.mp h1
      rcases mem_keys_dictSet m pid _ x hx with h2 | h2
      · exact Or.inl (hxe ▸ h2)
      · exact Or.inr (by rw [← hxe, h2]; exact List.mem_cons_self _ _)
    · exact Or.inr (List.mem_cons_of_mem _ h1)

theorem mem_keys_contentPhase (L : Nat) :
    ∀ (d : List Nat) (i : Nat) (m : List (Nat × ℚ)) (e : Nat × ℚ),
      e ∈ contentPhase L i d m → e.1 ∈ m.map (fun x => x.1) ∨ e.1 ∈ d
  | [], i, m, e, h => Or.inl (List.mem_map.mpr ⟨e, h, rfl⟩)
  | pid :: rest, i, m, e, h => by
    rcases mem_keys_contentPhase L rest (i + 1) _ e h with h1 | h1
    · obtain ⟨x, hx, hxe⟩ := List.mem_map.mp h1
      by_cases hc : dictContains m pid = true
      · rw [if_pos hc] at hx
        exact Or.inl (hxe ▸ mem_keys_dictAdd m pid _ x hx)
      · rw [if_neg hc] at hx
        rcases mem_keys_dictSet m pid _ x hx with h2 | h2
        · exact Or.inl (hxe ▸ h2)
        · exact Or.inr (by simp [hxe ▸ h2])
    · exact Or.inr (List.mem_cons_of_mem _ h1)

/-- The filter loop of `recommend_posts_collaborative` only ever appends rows
whose post the target user has not interacted with. -/
theorem collabLoop_excludes (userPosts : List Nat) (n : Nat) :
    ∀ (rows : List (Nat × Nat × ℚ)) (acc : List (Nat × ℚ)),
      (∀ r ∈ acc, ¬ r.1 ∈ userPosts) →
      ∀ r ∈ rows.foldl (fun acc r =>
          if r.1 ∉ userPosts ∧ acc.length < n then
            acc ++ [(r.1, (r.2.1 : ℚ) * r.2.2)]
          else acc) acc, ¬ r.1 ∈ userPosts
  | [], _, hacc => hacc
  | row :: rest, acc, hacc => by
    rw [List.foldl_cons]
    apply collabLoop_excludes userPosts n rest
    split_ifs with hcond
    · intro r hr
      rcases List.mem_append.mp hr with hr | hr
      · exact hacc r hr
      · simp only [List.mem_singleton] at hr
        rw [hr]
        exact hcond.1
    · exact hacc

theorem recommend_posts_collaborative_excludes (db : DB) (u n : Nat)
    (recs : List (Nat × ℚ)) (h : recommend_posts_collaborative db u n = some recs) :
    ∀ r ∈ recs, ¬ r.1 ∈ interactedPostIds db u := by
  unfold recommend_posts_collaborative at h
  cases hf : find_similar_users db u 20 with
  | none => rw [hf] at h; exact Option.noConfusion h
  | some sims =>
    rw [hf] at h
    simp only [Option.map_some'] at h
    cases h
    split_ifs
    · intro r hr
      exact absurd hr (List.not_mem_nil r)
    · exact collabLoop_excludes (interactedPostIds db u) n _ []
        (fun r hr => absurd hr (List.not_mem_nil r))

/-- Every key of the `similar_posts_scores` dict is outside `seen_posts`. -/
theorem similarPostsScores_keys_not_seen (tdb : TravelDB)
    (oracle : Nat → List (Nat × ℚ)) (seen : List Nat)
    (prefs : (String → ℚ) × (String → ℚ) × (String → ℚ)) :
    ∀ (rows : List (Nat × String × Option String)),
      ∀ e ∈ similarPostsScores tdb oracle rows seen prefs, ¬ e.1 ∈ seen := by
  have hinner : ∀ (sims : List (Nat × ℚ)) (m : List (Nat × ℚ)),
      (∀ e ∈ m, ¬ e.1 ∈ seen) → ∀ w : ℚ,
      ∀ e ∈ sims.foldl (fun m sp =>
          if sp.1 ∈ seen then m
          else
            let m := if dictContains m sp.1 then m else m ++ [(sp.1, 0)]
            dictAdd m sp.1 (sp.2 * w + locationBonus tdb prefs sp.1)) m,
        ¬ e.1 ∈ seen := by
    intro sims
    induction sims with
    | nil => intro m hm w e he; exact hm e he
    | cons sp rest ih =>
      intro m hm w e he
      rw [List.foldl_cons] at he
      refine ih _ ?_ w e he
      intro x hx
      by_cases h1 : sp.1 ∈ seen
      · rw [if_pos h1] at hx
        exact hm x hx
      · rw [if_neg h1] at hx
        have hx' := mem_keys_dictAdd _ _ _ x hx
        by_cases h2 : dictContains m sp.1 = true
        · rw [if_pos h2] at hx'
          obtain ⟨y, hy, hye⟩ := List.mem_map.mp hx'
          exact hye ▸ hm y hy
        · rw [if_neg h2] at hx'
          obtain ⟨y, hy, hye⟩ := List.mem_map.mp hx'
          rcases List.mem_append.mp hy with hy | hy
          · exact hye ▸ hm y hy
          · simp only [List.mem_singleton] at hy
            rw [← hye, hy]
            exact h1
  have houter : ∀ (rows : List (Nat × String × Option String))
      (m : List (Nat × ℚ)), (∀ e ∈ m, ¬ e.1 ∈ seen) →
      ∀ e ∈ rows.foldl (fun m row =>
          let w := interactionWeight row.2.1
          (oracle row.1).foldl (fun m sp =>
            if sp.1 ∈ seen then m
            else
              let m := if dictContains m sp.1 then m else m ++ [(sp.1, 0)]
              dictAdd m sp.1 (sp.2 * w + locationBonus tdb prefs sp.1)) m) m,
        ¬ e.1 ∈ seen := by
    intro rows
    induction rows with
    | nil => intro m hm e he; exact hm e he
    | cons row rest ih =>
      intro m hm e he
      rw [List.foldl_cons] at he
      exact ih _ (hinner (oracle row.1) m hm (interactionWeight row.2.1)) e he
  intro rows
  unfold similarPostsScores
  exact houter rows [] (fun e he => absurd he (List.not_mem_nil e))

/-- A post the user interacted with that still exists in the posts table
always shows up in the `user_interactions` rows (hence in `seen_posts`). -/
theorem interacted_mem_seen (tdb : TravelDB) (u pid : Nat)
    (hpost : ∃ p ∈ tdb.posts, p.id = pid)
    (hint : pid ∈ travelInteractedPostIds tdb u) :
    pid ∈ (userInteractionRows tdb u).map (fun r => r.1) := by
  obtain ⟨i, hi, hipid⟩ : ∃ i ∈ tdb.interactions.filter (fun i => i.userId = u),
      i.postId = pid := by
    unfold travelInteractedPostIds at hint
    obtain ⟨i, hi, hp⟩ := List.mem_map.mp hint
    exact ⟨i, hi, hp⟩
  have hiu : i.userId = u := by simpa using List.of_mem_filter hi
  have himem : i ∈ tdb.interactions := List.mem_of_mem_filter hi
  have hfil : i ∈ sortDescBy (fun i => (i.stamp : ℚ))
      (tdb.interactions.filter (fun i =>
        i.userId = u ∧ tdb.posts.any (fun p => p.id = i.postId))) := by
    rw [mem_sortDescBy]
    refine List.mem_filter.mpr ⟨himem, ?_⟩
    obtain ⟨p, hp, hpe⟩ := hpost
    simp only [decide_eq_true_eq]
    exact ⟨hiu, List.any_eq_true.mpr ⟨p, hp, by simp [hpe, hipid]⟩⟩
  unfold userInteractionRows
  rw [List.mem_map]
  rcases htags : (tdb.postTags.filter (fun t => t.1 = i.postId)).map
      (fun t => t.2) with _ | ⟨t, ts⟩
  · refine ⟨(i.postId, i.kind, none), ?_, hipid⟩
    rw [List.mem_dedup]
    refine List.mem_flatMap.mpr ⟨i, hfil, ?_⟩
    simp only [htags]
    simp
  · refine ⟨(i.postId, i.kind, some t), ?_, hipid⟩
    rw [List.mem_dedup]
    refine List.mem_flatMap.mpr ⟨i, hfil, ?_⟩
    simp only [htags]
    simp

theorem recommend_posts_content_based_excludes (tdb : TravelDB)
    (oracle : Nat → List (Nat × ℚ)) (u n : Nat) :
    ∀ r ∈ recommend_posts_content_based tdb oracle u n,
      ¬ r.1 ∈ travelInteractedPostIds tdb u := by
  intro r hr hint
  unfold recommend_posts_content_based at hr
  by_cases h1 : tdb.users.count u = 0
  · rw [if_pos h1] at hr
    exact absurd hr (List.not_mem_nil r)
  rw [if_neg h1] at hr
  by_cases h2 : (userInteractionRows tdb u).isEmpty = true
  · rw [if_pos h2] at hr
    exact absurd hr (List.not_mem_nil r)
  rw [if_neg h2] at hr
  obtain ⟨pid, hpid, hsome⟩ := List.mem_filterMap.mp hr
  by_cases h3 : (tdb.posts.any (fun p =>
      p.id = pid ∧ p.userId ∈ tdb.users)) = true
  case neg =>
    rw [if_neg h3] at hsome
    exact Option.noConfusion hsome
  rw [if_pos h3] at hsome
  have hrpid : r.1 = pid := by cases hsome; rfl
  have hpid_m : pid ∈ (similarPostsScores tdb oracle (userInteractionRows tdb u)
      ((userInteractionRows tdb u).map (fun r => r.1))
      (buildPrefs tdb (userInteractionRows tdb u))).map (fun e => e.1) := by
    have h4 := List.mem_of_mem_take hpid
    obtain ⟨e, he, hee⟩ := List.mem_map.mp h4
    exact List.mem_map.mpr ⟨e, (mem_sortDescBy _ _ _).mp he, hee⟩
  obtain ⟨e, he, hee⟩ := List.mem_map.mp hpid_m
  have hnot := similarPostsScores_keys_not_seen tdb oracle
    ((userInteractionRows tdb u).map (fun r => r.1))
    (buildPrefs tdb (userInteractionRows tdb u)) (userInteractionRows tdb u)
    e he
  refine hnot ?_
  rw [hee]
  refine interacted_mem_seen tdb u pid ?_ (hrpid ▸ hint)
  obtain ⟨p, hp, hpe⟩ := List.any_eq_true.mp h3
  exact ⟨p, hp, by simpa using (of_decide_eq_true hpe).1⟩

/-- **C5, amended.**  For every user and every strategy, each returned
recommendation refers to an item the target user has not previously
interacted with (liked, commented on, or shared) — but items the user
AUTHORED are not excluded (see the counterexample).  Stated for the
collaborative engine, the content-based engine (for any TF-IDF similarity
oracle), and the hybrid entry point under the assumption that the engine
results it is fed obey the same exclusion. -/
theorem c5_theorem :
    (∀ (db : DB) (u n : Nat) (recs : List (Nat × ℚ)),
        recommend_posts_collaborative db u n = some recs →
        ∀ r ∈ recs, ¬ r.1 ∈ interactedPostIds db u) ∧
    (∀ (tdb : TravelDB) (oracle : Nat → List (Nat × ℚ)) (u n : Nat),
        ∀ r ∈ recommend_posts_content_based tdb oracle u n,
          ¬ r.1 ∈ travelInteractedPostIds tdb u) ∧
    (∀ (db : DB) (contentRes collabRes : Except String (List Nat)) (u n : Nat),
        (∀ pid ∈ caughtRecs contentRes, ¬ pid ∈ interactedPostIds db u) →
        (∀ pid ∈ caughtRecs collabRes, ¬ pid ∈ interactedPostIds db u) →
        ∀ pid ∈ recommend_posts db contentRes collabRes u n,
          ¬ pid ∈ interactedPostIds db u) := by
  refine ⟨recommend_posts_collaborative_excludes,
    recommend_posts_content_based_excludes, ?_⟩
  intro db contentRes collabRes u n hcont hcoll pid hpid
  have hcoll' : ∀ q ∈ effectiveCollabRecs db collabRes u,
      ¬ q ∈ interactedPostIds db u := by
    intro q hq
    unfold effectiveCollabRecs at hq
    split_ifs at hq
    · exact hcoll q hq
    · exact absurd hq (List.not_mem_nil q)
  unfold recommend_posts at hpid
  rcases hcore : recommendPostsCore db contentRes collabRes u n with _ | ⟨a, l⟩
  · rw [hcore] at hpid
    exact absurd hpid (List.not_mem_nil pid)
  · rw [hcore] at hpid
    simp only at hpid
    simp only [recommendPostsCore] at hcore
    split_ifs at hcore <;> cases hcore
    · -- hybrid fusion
      obtain ⟨e, he, hee⟩ := List.mem_map.mp hpid
      have he2 : e ∈ contentPhase (caughtRecs contentRes).length 0
          (caughtRecs contentRes)
          (collabPhase (effectiveCollabRecs db collabRes u).length 0
            (effectiveCollabRecs db collabRes u) []) := by
        have := List.mem_of_mem_take he
        simpa [combinePostRecommendations, mem_sortDescBy] using
          (mem_sortDescBy _ _ _).mp (List.mem_of_mem_take
            (by simpa [combinePostRecommendations] using he))
      rcases mem_keys_contentPhase _ _ _ _ e he2 with h5 | h5
      · obtain ⟨x, hx, hxe⟩ := List.mem_map.mp h5
        rcases mem_keys_collabPhase _ _ _ _ x hx with h6 | h6
        · simp at h6
        · exact hee ▸ hxe ▸ hcoll' _ h6
      · exact hee ▸ hcont _ h5
    · exact hcoll' pid (List.mem_of_mem_take hpid)
    · exact hcont pid (List.mem_of_mem_take hpid)
    · exact mem_getPopularPosts db u n pid hpid

theorem c5_witness : ¬ 10 ∈ interactedPostIds dbC5 1 :=
  c5_theorem.2.2 dbC5 (.ok []) (.ok []) 1 5 (by simp [caughtRecs])
    (by simp [caughtRecs]) 10
    (by rw [recommend_posts_dbC5_eval]; exact List.mem_singleton_self 10)

/-! ## Claim C4 — determinism of the fixed recommender -/

/-- Snapshot used for C4: user 1 interacted with posts 101/102/105; user 2
shares three of those posts (plus an exclusive post 103), user 3 shares two
(plus an exclusive post 104), so both are similar users with distinct
common-interaction counts. -/
def dbC4 : DB :=
  { users := [1, 2, 3],
    posts := [{ id := 101, userId := 1 }, { id := 102, userId := 1 },
      { id := 103, userId := 1 }, { id := 104, userId := 1 },
      { id := 105, userId := 1 }],
    likes := [(1, 101), (1, 102), (1, 105), (2, 101), (2, 102), (2, 105),
      (2, 103), (3, 101), (3, 102), (3, 104)],
    comments := [], shares := [] }

theorem findSimilarUsersFixed_dbC4_len :
    (findSimilarUsersFixed dbC4 1).length = 2 := by
  norm_num [findSimilarUsersFixed, interactedPostIds, sortAsc, sortDescBy,
    List.insertionSort, List.orderedInsert, List.dedup, List.countP,
    List.countP.go, dbC4, min_def]

/-- **C4, counterexample.**  The claim says no step of candidate generation
depends on the wall clock.  `_get_collaborative_recommendations` seeds its
similar-user rotation with `int(time.time()) % len(similar_users)`: on
`dbC4`, the calls at clock seconds 0 and 1 return the same two candidates in
different orders — not identical ordered output. -/
theorem c4_counterexample :
    getCollaborativeRecommendationsFixed dbC4 1 (interactedPostIds dbC4 1) 10 0
        = [(103, 0), (104, 0)] ∧
      getCollaborativeRecommendationsFixed dbC4 1 (interactedPostIds dbC4 1) 10 1
        = [(104, 0), (103, 0)] ∧
      ¬ ([((103 : Nat), (0 : ℚ)), (104, 0)] = [(104, 0), (103, 0)]) := by
  refine ⟨?_, ?_, by simp⟩ <;>
    norm_num [getCollaborativeRecommendationsFixed, findSimilarUsersFixed,
      similarUserTopPosts, interactedPostIds, engagement, sortAsc, sortDescBy,
      List.insertionSort, List.orderedInsert, List.dedup, List.countP,
      List.countP.go, dbC4, min_def]

/-! The amended C4 theorem also characterizes how the diversity re-ranker
depends on the clock, so it appears after the C8 development below, which
supplies the declarative description of that re-ranker. -/

/-! ## Claim C8 — the diversity re-ranker

The claim states the bonus of each candidate declaratively, in terms of the
candidates processed before it.  We characterize the loop state after a
processed prefix and prove the code equal to that declarative form. -/

/-- The location of a candidate as the loop sees it: `None` and the empty
string are falsy in `if location and location not in used_locations`. -/
def truthyLoc (c : FCand) : Option String :=
  c.location.bind (fun l => if l = "" then none else some l)

/-- The claim's per-candidate bonus, computed from the list `prior` of
candidates processed before this one: +3 for an unseen author (else +1 while
fewer than 3 distinct authors have appeared), +2 for an unseen location, +1
while the candidate's content type has appeared fewer than `limit / 2`
times, and the recency bonus from the age in days. -/
def specDiversityBonus (limit : Nat) (prior : List FCand) (c : FCand) : ℚ :=
  (if c.authorId ∉ prior.map (fun x => x.authorId) then 3
   else if (prior.map (fun x => x.authorId)).dedup.length < 3 then 1 else 0)
  + (match c.location with
     | some loc => if ¬ loc = "" ∧ loc ∉ prior.filterMap truthyLoc then 2
       else 0
     | none => 0)
  + (if prior.countP (fun x => x.mediaType = c.mediaType) < limit / 2 then 1
     else 0)
  + (match c.daysOld with
     | some d => if 1 ≤ d ∧ d ≤ 7 then 2 else if d ≤ 30 then 1 else 0
     | none => 0)

/-- Each candidate in input order, paired with the claim's
`bonus + popularity` score, the bonus taken against the prefix before it. -/
def specScoredGo (limit : Nat) (prior : List FCand) :
    List FCand → List (FCand × ℚ)
  | [] => []
  | c :: rest =>
    (c, specDiversityBonus limit prior c + c.popularity)
      :: specScoredGo limit (prior ++ [c]) rest

/-- The claim's description of the re-ranker: score every candidate against
the prefix before it, sort by score descending (stably), truncate. -/
def specDiversify (recs : List FCand) (limit : Nat) : List (FCand × ℚ) :=
  (sortDescBy (fun e => e.2) (specScoredGo limit [] recs)).take limit

/-- The `used_users` set after a processed prefix. -/
def usedUsersOf (prior : List FCand) : List Nat :=
  prior.foldl (fun s c => if c.authorId ∉ s then s ++ [c.authorId] else s) []

/-- The `used_locations` set after a processed prefix. -/
def usedLocationsOf (prior : List FCand) : List String :=
  prior.foldl (fun s c =>
    match c.location with
    | some loc => if ¬ loc = "" ∧ loc ∉ s then s ++ [loc] else s
    | none => s) []

theorem mem_usedUsers_fold (a : Nat) :
    ∀ (prior : List FCand) (s : List Nat),
      (a ∈ prior.foldl
          (fun s c => if c.authorId ∉ s then s ++ [c.authorId] else s) s)
        ↔ a ∈ s ∨ a ∈ prior.map (fun x => x.authorId)
  | [], s => by simp
  | c :: rest, s => by
    rw [List.foldl_cons, mem_usedUsers_fold a rest]
    by_cases h : c.authorId ∈ s
    · rw [if_neg (not_not_intro h)]
      simp only [List.map_cons, List.mem_cons]
      constructor
      · rintro (h1 | h1)
        · exact Or.inl h1
        · exact Or.inr (Or.inr h1)
      · rintro (h1 | rfl | h1)
        · exact Or.inl h1
        · exact Or.inl h
        · exact Or.inr h1
    · rw [if_pos h]
      simp only [List.mem_append, List.mem_singleton, List.map_cons,
        List.mem_cons]
      tauto

theorem nodup_usedUsers_fold :
    ∀ (prior : List FCand) (s : List Nat), s.Nodup →
      (prior.foldl
        (fun s c => if c.authorId ∉ s then s ++ [c.authorId] else s) s).Nodup
  | [], s, hs => hs
  | c :: rest, s, hs => by
    rw [List.foldl_cons]
    refine nodup_usedUsers_fold rest _ ?_
    by_cases h : c.authorId ∈ s
    · rw [if_neg (not_not_intro h)]
      exact hs
    · rw [if_pos h]
      simp [List.nodup_append, hs, h]

theorem length_usedUsers_fold :
    ∀ (prior : List FCand) (s : List Nat), s.Nodup →
      (prior.foldl
        (fun s c => if c.authorId ∉ s then s ++ [c.authorId] else s) s).length
        = (s ++ prior.map (fun x => x.authorId)).dedup.length := by
  intro prior
  induction prior with
  | nil =>
    intro s hs
    simp [List.dedup_eq_self.mpr hs]
  | cons c rest ih =>
    intro s hs
    rw [List.foldl_cons]
    by_cases h : c.authorId ∈ s
    · rw [if_neg (not_not_intro h), ih s hs]
      have : ((s ++ List.map (fun x => x.authorId) rest).toFinset : Finset Nat)
          = (s ++ List.map (fun x => x.authorId) (c :: rest)).toFinset := by
        ext x
        simp only [List.toFinset_append, List.map_cons, Finset.mem_union,
          List.mem_toFinset, List.mem_cons]
        constructor
        · rintro (h1 | h1)
          · exact Or.inl h1
          · exact Or.inr (Or.inr h1)
        · rintro (h1 | rfl | h1)
          · exact Or.inl h1
          · exact Or.inl h
          · exact Or.inr h1
      rw [← List.card_toFinset, ← List.card_toFinset, this]
    · rw [if_pos h, ih _ (by simp [List.nodup_append, hs, h])]
      have : ((s ++ [c.authorId] ++ List.map (fun x => x.authorId) rest).toFinset
            : Finset Nat)
          = (s ++ List.map (fun x => x.authorId) (c :: rest)).toFinset := by
        ext x
        simp only [List.toFinset_append, List.map_cons, List.toFinset_cons,
          Finset.mem_union, List.mem_toFinset, List.mem_cons,
          List.mem_singleton, Finset.mem_insert]
        tauto
      rw [← List.card_toFinset, ← List.card_toFinset, this]

theorem mem_usedLocs_fold (a : String) :
    ∀ (prior : List FCand) (s : List String),
      (a ∈ prior.foldl (fun s c =>
          match c.location with
          | some loc => if ¬ loc = "" ∧ loc ∉ s then s ++ [loc] else s
          | none => s) s)
        ↔ a ∈ s ∨ a ∈ prior.filterMap truthyLoc
  | [], s => by simp
  | c :: rest, s => by
    rw [List.foldl_cons, mem_usedLocs_fold a rest]
    rcases hloc : c.location with _ | loc
    · simp [truthyLoc, List.filterMap_cons, hloc]
    · by_cases hemp : loc = ""
      · subst hemp
        simp [truthyLoc, List.filterMap_cons, hloc]
      · have htr : truthyLoc c = some loc := by simp [truthyLoc, hloc, hemp]
        by_cases hmem : loc ∈ s
        · dsimp only
          rw [if_neg (by simp [hmem])]
          simp only [List.filterMap_cons, htr, List.mem_cons]
          constructor
          · rintro (h1 | h1)
            · exact Or.inl h1
            · exact Or.inr (Or.inr h1)
          · rintro (h1 | rfl | h1)
            · exact Or.inl h1
            · exact Or.inl hmem
            · exact Or.inr h1
        · dsimp only
          rw [if_pos ⟨hemp, hmem⟩]
          simp only [List.mem_append, List.mem_singleton,
            List.filterMap_cons, htr, List.mem_cons]
          tauto

/-- The loop of `_apply_intelligent_diversity`, started in the state left by
a processed prefix, emits exactly the claim's declarative scores. -/
theorem diversityGo_spec (limit : Nat) :
    ∀ (rest prior : List FCand) (acc : List (FCand × ℚ)),
      diversityGo limit rest (usedUsersOf prior) (usedLocationsOf prior)
        (fun ty => min (prior.countP (fun x => x.mediaType = ty)) (limit / 2))
        acc
      = acc ++ specScoredGo limit prior rest
  | [], prior, acc => by simp [diversityGo, specScoredGo]
  | c :: rest, prior, acc => by
    have hmemU : (c.authorId ∈ usedUsersOf prior)
        ↔ c.authorId ∈ prior.map (fun x => x.authorId) := by
      simpa [usedUsersOf] using mem_usedUsers_fold c.authorId prior []
    have hlenU : (usedUsersOf prior).length
        = (prior.map (fun x => x.authorId)).dedup.length := by
      simpa [usedUsersOf] using length_usedUsers_fold prior [] List.nodup_nil
    have hcond : ∀ k : Nat, (min k (limit / 2) < limit / 2 ↔ k < limit / 2) :=
      fun k => by omega
    have hs1 : (if c.authorId ∉ usedUsersOf prior then (3 : ℚ)
          else if (usedUsersOf prior).length < 3 then 1 else 0)
        = (if c.authorId ∉ prior.map (fun x => x.authorId) then (3 : ℚ)
          else if (prior.map (fun x => x.authorId)).dedup.length < 3 then 1
          else 0) := by
      rw [hlenU]
      by_cases h : c.authorId ∈ prior.map (fun x => x.authorId)
      · rw [if_neg (not_not_intro (hmemU.mpr h)), if_neg (not_not_intro h)]
      · rw [if_pos (fun hh => h (hmemU.mp hh)), if_pos h]
    have hUU : usedUsersOf (prior ++ [c])
        = (if c.authorId ∉ usedUsersOf prior then
            usedUsersOf prior ++ [c.authorId]
          else usedUsersOf prior) := by
      unfold usedUsersOf
      rw [List.foldl_append]
      rfl
    have hUL : usedLocationsOf (prior ++ [c])
        = (match c.location with
          | some loc => if ¬ loc = "" ∧ loc ∉ usedLocationsOf prior then
              usedLocationsOf prior ++ [loc]
            else usedLocationsOf prior
          | none => usedLocationsOf prior) := by
      unfold usedLocationsOf
      rw [List.foldl_append]
      rfl
    have hmemL : ∀ loc, (loc ∈ usedLocationsOf prior)
        ↔ loc ∈ prior.filterMap truthyLoc := by
      intro loc
      simpa [usedLocationsOf] using mem_usedLocs_fold loc prior []
    have hs2 : (match c.location with
          | some loc =>
            if ¬ loc = "" ∧ loc ∉ usedLocationsOf prior then (2 : ℚ) else 0
          | none => (0 : ℚ))
        = (match c.location with
          | some loc =>
            if ¬ loc = "" ∧ loc ∉ prior.filterMap truthyLoc then (2 : ℚ)
            else 0
          | none => (0 : ℚ)) := by
      rcases c.location with _ | loc
      · rfl
      · dsimp only
        by_cases h2 : loc ∈ prior.filterMap truthyLoc
        · rw [if_neg (by simp [(hmemL loc).mpr h2]),
            if_neg (by simp [h2])]
        · by_cases h1 : loc = ""
          · rw [if_neg (by simp [h1]), if_neg (by simp [h1])]
          · rw [if_pos ⟨h1, fun hh => h2 ((hmemL loc).mp hh)⟩,
              if_pos ⟨h1, h2⟩]
    have hs3 : (if (fun ty => min (prior.countP (fun x => x.mediaType = ty))
            (limit / 2)) c.mediaType < limit / 2 then (1 : ℚ) else 0)
        = (if prior.countP (fun x => x.mediaType = c.mediaType) < limit / 2
          then (1 : ℚ) else 0) := by
      by_cases h : prior.countP (fun x => x.mediaType = c.mediaType) < limit / 2
      · rw [if_pos ((hcond _).mpr h), if_pos h]
      · rw [if_neg (fun hh => h ((hcond _).mp hh)), if_neg h]
    have hCT : (if (fun ty => min (prior.countP (fun x => x.mediaType = ty))
            (limit / 2)) c.mediaType < limit / 2 then
            (fun ty => if ty = c.mediaType then
              (fun ty => min (prior.countP (fun x => x.mediaType = ty))
                (limit / 2)) ty + 1
            else (fun ty => min (prior.countP (fun x => x.mediaType = ty))
                (limit / 2)) ty)
          else (fun ty => min (prior.countP (fun x => x.mediaType = ty))
            (limit / 2)))
        = (fun ty => min ((prior ++ [c]).countP (fun x => x.mediaType = ty))
            (limit / 2)) := by
      simp only []
      by_cases h : prior.countP (fun x => x.mediaType = c.mediaType) < limit / 2
      · rw [if_pos ((hcond _).mpr h)]
        funext ty
        rw [List.countP_append]
        by_cases hty : ty = c.mediaType
        · rw [if_pos hty]
          have h1 : List.countP (fun x => decide (x.mediaType = ty)) [c] = 1 := by
            simp [hty]
          rw [h1]
          subst hty
          omega
        · rw [if_neg hty]
          have h0 : List.countP (fun x => decide (x.mediaType = ty)) [c] = 0 := by
            have hne : ¬ c.mediaType = ty := fun hh => hty hh.symm
            simp [List.countP_cons, hne]
          rw [h0, Nat.add_zero]
      · rw [if_neg (fun hh => h ((hcond _).mp hh))]
        funext ty
        rw [List.countP_append]
        by_cases hty : ty = c.mediaType
        · have h1 : List.countP (fun x => decide (x.mediaType = ty)) [c] = 1 := by
            simp [hty]
          rw [h1]
          subst hty
          omega
        · have h0 : List.countP (fun x => decide (x.mediaType = ty)) [c] = 0 := by
            have hne : ¬ c.mediaType = ty := fun hh => hty hh.symm
            simp [List.countP_cons, hne]
          rw [h0, Nat.add_zero]
    rw [diversityGo]
    rw [hs1, hs2, hs3, ← hUU, ← hUL, hCT,
      diversityGo_spec limit rest (prior ++ [c])]
    rw [specScoredGo]
    simp [specDiversityBonus]

/-- The loop-based re-ranker equals the declarative form: score every
candidate against the prefix before it, sort by score descending (stably),
truncate. -/
theorem applyDiversity_spec (recs : List FCand) (limit : Nat) :
    applyIntelligentDiversity recs limit
      = (sortDescBy (fun e => e.2) (specScoredGo limit [] recs)).take limit := by
  unfold applyIntelligentDiversity
  have h0 : (fun _ : String => (0 : Nat))
      = fun ty => min (List.countP (fun x => decide (x.mediaType = ty))
          ([] : List FCand)) (limit / 2) := by
    funext ty
    simp
  rw [h0]
  have hgo := diversityGo_spec limit recs [] []
  simp only [usedUsersOf, usedLocationsOf, List.foldl_nil,
    List.nil_append] at hgo
  rw [hgo]

/-- **C8.**  `_apply_intelligent_diversity` computes, for each candidate in
input order, exactly the claimed bonus — +3/+1/0 by author novelty and the
count of distinct authors seen, +2 for a new location, +1 while the content
type has appeared fewer than `limit/2` times, +2/+1/0 by age — adds the
candidate's `popularity_score`, sorts the scored candidates by that total
descending (stable), and truncates to `limit`. -/
theorem c8_theorem (recs : List FCand) (limit : Nat) :
    applyIntelligentDiversity recs limit = specDiversify recs limit := by
  unfold specDiversify
  exact applyDiversity_spec recs limit

/-! ## Claim C4, amended — how the fixed recommender depends on the clock

The two candidate-generation steps read the clock second `t` and use it only
through `t % len(similar_users)` and `t % 4`.  The diversity re-ranker reads
`datetime.now()` once and uses it only to compute each candidate's age in
days, which enters the bonus only through the recency buckets below. -/

/-- The recency bucket of a candidate's clock-derived age in days — the only
channel through which `datetime.now()` enters the diversity bonus: +2 for an
age of 1–7 days, +1 up to 30 days, 0 otherwise, and 0 for an unparseable
`created_at` (`none`). -/
def ageBucket (d : Option Int) : ℚ :=
  match d with
  | some d => if 1 ≤ d ∧ d ≤ 7 then 2 else if d ≤ 30 then 1 else 0
  | none => 0

/-- Replace a candidate's clock-derived age, keeping every other field. -/
def updAge (f : FCand → Option Int) (c : FCand) : FCand :=
  { c with daysOld := f c }

theorem specDiversityBonus_map_age (limit : Nat) (f : FCand → Option Int)
    (prior : List FCand) (c : FCand)
    (h : ageBucket (f c) = ageBucket c.daysOld) :
    specDiversityBonus limit (prior.map (updAge f)) (updAge f c)
      = specDiversityBonus limit prior c := by
  have h1 : (prior.map (updAge f)).map (fun x => x.authorId)
      = prior.map (fun x => x.authorId) := by
    rw [List.map_map]
    rfl
  have h2 : (prior.map (updAge f)).filterMap truthyLoc
      = prior.filterMap truthyLoc := by
    rw [List.filterMap_map]
    rfl
  have h3 : (prior.map (updAge f)).countP
        (fun x => x.mediaType = c.mediaType)
      = prior.countP (fun x => x.mediaType = c.mediaType) := by
    rw [List.countP_map]
    rfl
  have h4 : (match f c with
        | some d => if 1 ≤ d ∧ d ≤ 7 then (2 : ℚ) else if d ≤ 30 then 1
          else 0
        | none => 0)
      = (match c.daysOld with
        | some d => if 1 ≤ d ∧ d ≤ 7 then (2 : ℚ) else if d ≤ 30 then 1
          else 0
        | none => 0) := by
    simpa [ageBucket] using h
  unfold specDiversityBonus
  dsimp only [updAge]
  rw [h1, h2, h3, h4]

theorem specScoredGo_map_age (limit : Nat) (f : FCand → Option Int) :
    ∀ (rest prior : List FCand),
      (∀ c ∈ rest, ageBucket (f c) = ageBucket c.daysOld) →
      specScoredGo limit (prior.map (updAge f)) (rest.map (updAge f))
        = (specScoredGo limit prior rest).map (fun e => (updAge f e.1, e.2))
  | [], prior, _ => by simp [specScoredGo]
  | c :: rest, prior, hage => by
    simp only [List.map_cons, specScoredGo]
    rw [specDiversityBonus_map_age limit f prior c
      (hage c (List.mem_cons_self c rest))]
    have happ : prior.map (updAge f) ++ [updAge f c]
        = (prior ++ [c]).map (updAge f) := by
      simp
    rw [happ, specScoredGo_map_age limit f rest (prior ++ [c])
      (fun d hd => hage d (List.mem_cons_of_mem c hd))]
    dsimp only [updAge]

theorem orderedInsert_map_key_eq {α : Type} (key : α → ℚ) (g : α → α)
    (hk : ∀ x, key (g x) = key x) (x : α) :
    ∀ l : List α,
      List.orderedInsert (fun a b => key b ≤ key a) (g x) (l.map g)
        = (List.orderedInsert (fun a b => key b ≤ key a) x l).map g
  | [] => by simp [List.orderedInsert]
  | y :: ys => by
    rw [List.map_cons, List.orderedInsert, List.orderedInsert]
    by_cases h : key y ≤ key x
    · rw [if_pos (by rw [hk y, hk x]; exact h), if_pos h, List.map_cons,
        List.map_cons]
    · rw [if_neg (by rw [hk y, hk x]; exact h), if_neg h, List.map_cons,
        orderedInsert_map_key_eq key g hk x ys]

theorem sortDescBy_map_key_eq {α : Type} (key : α → ℚ) (g : α → α)
    (hk : ∀ x, key (g x) = key x) :
    ∀ l : List α, sortDescBy key (l.map g) = (sortDescBy key l).map g
  | [] => by simp [sortDescBy]
  | x :: xs => by
    simp only [sortDescBy, List.map_cons, List.insertionSort]
    rw [show List.insertionSort (fun a b => key b ≤ key a) (xs.map g)
        = (List.insertionSort (fun a b => key b ≤ key a) xs).map g from
      sortDescBy_map_key_eq key g hk xs]
    exact orderedInsert_map_key_eq key g hk x _

/-- **C4, amended.**  No step of the fixed recommender draws random numbers:
each step is a pure function of the snapshot and the clock readings it
takes.  But the claimed time-independence fails, and the dependence is
exactly this: the collaborative candidate step reads the clock second `t`
only through `t % len(similar_users)` (the rotation seed), the content-based
step only through `t % 4` (the recency-focus switch), and the diversity
re-ranker reads the current date only through each candidate's recency
bucket (age 1–7 days / ≤ 30 days / older): changing the candidates' ages
without crossing a bucket boundary leaves the re-ranked candidates, their
order and their scores unchanged.  (The fixed popularity query likewise
scores by the current date, at day granularity.) -/
theorem c4_amended :
    (∀ (db : DB) (u : Nat) (userPosts : List Nat) (limit t t' : Nat),
        t % (findSimilarUsersFixed db u).length
            = t' % (findSimilarUsersFixed db u).length →
        getCollaborativeRecommendationsFixed db u userPosts limit t
          = getCollaborativeRecommendationsFixed db u userPosts limit t') ∧
    (∀ (db : DB) (u : Nat) (userPosts : List Nat) (limit t t' : Nat),
        t % 4 = t' % 4 →
        getContentBasedRecommendationsFixed db u userPosts limit t
          = getContentBasedRecommendationsFixed db u userPosts limit t') ∧
    (∀ (limit : Nat) (recs : List FCand) (f : FCand → Option Int),
        (∀ c ∈ recs, ageBucket (f c) = ageBucket c.daysOld) →
        applyIntelligentDiversity (recs.map (updAge f)) limit
          = (applyIntelligentDiversity recs limit).map
              (fun e => (updAge f e.1, e.2))) := by
  refine ⟨?_, ?_, ?_⟩
  · intro db u userPosts limit t t' h
    simp only [getCollaborativeRecommendationsFixed]
    rw [h]
  · intro db u userPosts limit t t' h
    simp only [getContentBasedRecommendationsFixed]
    rw [h]
  · intro limit recs f hage
    rw [applyDiversity_spec, applyDiversity_spec]
    have h1 : specScoredGo limit [] (recs.map (updAge f))
        = (specScoredGo limit [] recs).map (fun e => (updAge f e.1, e.2)) := by
      have := specScoredGo_map_age limit f recs [] hage
      simpa using this
    rw [h1, sortDescBy_map_key_eq (fun e : FCand × ℚ => e.2)
        (fun e => (updAge f e.1, e.2)) (fun x => rfl), List.map_take]

theorem c4_witness :
    getCollaborativeRecommendationsFixed dbC4 1 (interactedPostIds dbC4 1) 10 2
      = getCollaborativeRecommendationsFixed dbC4 1 (interactedPostIds dbC4 1) 10 4 :=
  c4_amended.1 dbC4 1 (interactedPostIds dbC4 1) 10 2 4
    (by rw [findSimilarUsersFixed_dbC4_len])

end SocialHub
